import Mathlib

/-! # Verification development for `ntibi/counter`

A shallow embedding of the three Go source files

* `cmd/server/main.go`   (`clientIP`),
* `cmd/import/main.go`   (`parseTimestamp`, the import loop of `main`),
* `internal/loki/client.go` (`Push`, `CountSince`, `LastTimestamp`),

together with the parts of the Go standard library they call
(`net.SplitHostPort`, `strings.TrimSpace`, `strconv`, `time`).

Go strings are modelled as the list of their characters, so a byte offset of
the source is a position in the list.  Machine integers are `Int` with the
wrap-around or saturation of the Go operation written out where it can occur.
The standard library is the one of Go 1.20 or later on a 64-bit platform
(`int` is `int64`).

Definitions come first: the standard library, the three source files, then
the notions of the specification (namespace `Spec`).  The theorems follow.
-/

namespace Counter

/-! ## Strings -/

deriving instance DecidableEq for Except

/-- Position of the first `c` in `s` (`strings.IndexByte`), `none` for Go's `-1`. -/
def IndexByte : List Char → Char → Option Nat
  | [], _ => none
  | x :: xs, c => if x = c then some 0 else (IndexByte xs c).map (· + 1)

/-- Position of the last `c` in `s` (`strings.LastIndexByte`), `none` for Go's `-1`. -/
def LastIndexByte : List Char → Char → Option Nat
  | [], _ => none
  | x :: xs, c =>
    match LastIndexByte xs c with
    | some i => some (i + 1)
    | none => if x = c then some 0 else none

/-! ## `net.SplitHostPort` -/

/-- Go's `net.SplitHostPort`: the port starts after the last colon; a host in
square brackets must end right before that colon; an unbracketed host holds no
colon; no further bracket may occur.  The error carries Go's reason text. -/
def SplitHostPort (hostport : List Char) : Except String (List Char × List Char) :=
  match LastIndexByte hostport ':' with
  | none => .error "missing port in address"
  | some i =>
    if hostport.head? = some '[' then
      match IndexByte hostport ']' with
      | none => .error "missing ']' in address"
      | some e =>
        if e + 1 = hostport.length then .error "missing port in address"
        else if e + 1 = i then
          let host := (hostport.take e).drop 1
          if (IndexByte (hostport.drop 1) '[').isSome then .error "unexpected '[' in address"
          else if (IndexByte (hostport.drop (e + 1)) ']').isSome then
            .error "unexpected ']' in address"
          else .ok (host, hostport.drop (i + 1))
        else if (hostport.drop (e + 1)).head? = some ':' then .error "too many colons in address"
        else .error "missing port in address"
    else
      let host := hostport.take i
      if (IndexByte host ':').isSome then .error "too many colons in address"
      else if (IndexByte hostport '[').isSome then .error "unexpected '[' in address"
      else if (IndexByte hostport ']').isSome then .error "unexpected ']' in address"
      else .ok (host, hostport.drop (i + 1))

/-! ## Decimal digits, `strconv` and `strings` -/

/-- The test `'0' <= c && c <= '9'`. -/
def isDigit (c : Char) : Bool := decide (48 ≤ c.toNat) && decide (c.toNat ≤ 57)

/-- The value `c - '0'` of a digit character. -/
def digitVal (c : Char) : Nat := c.toNat - 48

/-- The character `'0' + d` for a digit `d`. -/
def digitChar (d : Nat) : Char := Char.ofNat (48 + d)

/-- The digit loop of Go's integer formatting (`for u >= 10 { ...; u /= 10 }`):
the decimal digits of `u` are put in front of `acc`.  `fuel` bounds the number
of iterations. -/
def formatBits : Nat → Nat → List Char → List Char
  | 0, _, acc => acc
  | fuel + 1, u, acc =>
    if u < 10 then digitChar u :: acc
    else formatBits fuel (u / 10) (digitChar (u % 10) :: acc)

/-- The decimal digits of `u`, most significant first, no leading zero. -/
def natDigits (u : Nat) : List Char := formatBits (u + 1) u []

/-- Go's `strconv.FormatInt(i, 10)`. -/
def FormatInt (i : Int) : List Char :=
  if i < 0 then '-' :: natDigits (-i).toNat else natDigits i.toNat

/-- The two ways `strconv` rejects a numeral. -/
inductive NumError where
  | ErrSyntax
  | ErrRange
  deriving DecidableEq, Repr

/-- The digit loop of `strconv.ParseUint(s, 10, 64)`, `n` being the value read
so far: a character that is no digit is a syntax error, a value above
`2^64 - 1` a range error. -/
def ParseUint.loop : List Char → Nat → Except NumError Nat
  | [], n => .ok n
  | c :: rest, n =>
    if !isDigit c then .error .ErrSyntax
    else if n ≥ (2 ^ 64 - 1) / 10 + 1 then .error .ErrRange
    else
      let n1 := n * 10 + digitVal c
      if n1 > 2 ^ 64 - 1 then .error .ErrRange
      else ParseUint.loop rest n1

/-- Go's `strconv.ParseUint(s, 10, 64)`. -/
def ParseUint (s : List Char) : Except NumError Nat :=
  if s = [] then .error .ErrSyntax else ParseUint.loop s 0

/-- Go's `strconv.ParseInt(s, 10, 64)`: an optional sign, then `ParseUint`,
then the check against the cutoff `2^63`.  A range error of `ParseUint` is a
range error here too (its saturated value is above either cutoff). -/
def ParseInt (s : List Char) : Except NumError Int :=
  match s with
  | [] => .error .ErrSyntax
  | c :: rest =>
    let neg := decide (c = '-')
    let digits := if c = '+' ∨ c = '-' then rest else s
    match ParseUint digits with
    | .error e => .error e
    | .ok un =>
      if !neg && un ≥ 2 ^ 63 then .error .ErrRange
      else if neg && un > 2 ^ 63 then .error .ErrRange
      else .ok (if neg then -(un : Int) else (un : Int))

/-- Go's `strconv.Atoi` on a platform whose `int` has 64 bits: the same result
as `ParseInt(s, 10, 0)` (the fast path for short inputs computes the same value). -/
def Atoi (s : List Char) : Except NumError Int := ParseInt s

/-- A wrapped two's-complement 64-bit value: the `int64` that Go's arithmetic
leaves when the exact result is `x`. -/
def wrapInt64 (x : Int) : Int := (x + 2 ^ 63) % 2 ^ 64 - 2 ^ 63

/-- The least and the greatest `int64`. -/
def minInt64 : Int := -(2 ^ 63)

def maxInt64 : Int := 2 ^ 63 - 1

/-! ## Package `time`: instants, calendar, durations -/

namespace GoTime

/-- A `time.Time`: the instant as seconds and nanoseconds since the Unix epoch
(`0 ≤ nsec < 10^9`), and the offset east of UTC, in seconds, of the zone the
value is displayed in. -/
structure Time where
  sec : Int
  nsec : Int
  offset : Int
  deriving DecidableEq, Repr

/-- A `*time.Location`, reduced to what the code needs: the zone offset in
effect at a given Unix time. -/
abbrev Location := Int → Int

/-- The location `time.UTC`. -/
def UTC : Location := fun _ => 0

/-- The location `time.FixedZone(name, offset)`. -/
def FixedZone (offset : Int) : Location := fun _ => offset

/-- Seconds from 1 January of year 1 to the Unix epoch (`unixToInternal`). -/
def unixToInternal : Int := 62135596800

/-- The zero value `time.Time{}`: 1 January of year 1, 00:00:00 UTC. -/
def zeroTime : Time := ⟨-unixToInternal, 0, 0⟩

/-- Go's `time.Unix(0, nsec)` in the location `loc`: the seconds and the
remainder in `[0, 10^9)`. -/
def Unix (loc : Location) (nsec : Int) : Time :=
  let sec := nsec / 1000000000
  ⟨sec, nsec - sec * 1000000000, loc sec⟩

/-- Go's `Time.UnixNano`: `sec*1e9 + nsec` computed in `int64`, so it wraps
around for an instant before 1677 or after 2262. -/
def Time.UnixNano (t : Time) : Int := wrapInt64 (t.sec * 1000000000 + t.nsec)

/-- The exact number of nanoseconds from the Unix epoch to `t`. -/
def Time.nanosSinceEpoch (t : Time) : Int := t.sec * 1000000000 + t.nsec

/-! ### Calendar -/

/-- Go's `isLeap`. -/
def isLeap (year : Int) : Bool := year % 4 == 0 && (year % 100 != 0 || year % 400 == 0)

/-- Go's table `daysBefore`: days of a non-leap year before month `m + 1`. -/
def daysBefore (m : Int) : Int :=
  if m ≤ 0 then 0 else if m = 1 then 31 else if m = 2 then 59 else if m = 3 then 90
  else if m = 4 then 120 else if m = 5 then 151 else if m = 6 then 181
  else if m = 7 then 212 else if m = 8 then 243 else if m = 9 then 273
  else if m = 10 then 304 else if m = 11 then 334 else 365

/-- Go's `daysIn`. -/
def daysIn (m : Int) (year : Int) : Int :=
  if m = 2 && isLeap year then 29 else daysBefore m - daysBefore (m - 1)

/-- Go's `daysSinceEpoch`, counted from 1 January of year 1: whole 400-year,
100-year and 4-year cycles, then single years.  (Go counts from the year
`-292277022399`, which is `1` modulo `400`, and shifts the result.) -/
def daysSinceEpoch (year : Int) : Int :=
  let y := year - 1
  let n400 := y / 400
  let y1 := y - 400 * n400
  let n100 := y1 / 100
  let y2 := y1 - 100 * n100
  let n4 := y2 / 4
  let y3 := y2 - 4 * n4
  146097 * n400 + 36524 * n100 + 1461 * n4 + 365 * y3

/-- Go's `time.Date` for fields that need no normalisation (`1 ≤ month ≤ 12`,
`1 ≤ day ≤ daysIn`, `hour < 24`, `min < 60`, `sec < 60`, `nsec < 10^9`) in a
zone of fixed offset `offset`. -/
def Date (year month day hour min sec nsec : Int) (offset : Int) : Time :=
  let d := daysSinceEpoch year + daysBefore (month - 1)
    + (if isLeap year && month ≥ 3 then 1 else 0) + (day - 1)
  let abs := d * 86400 + hour * 3600 + min * 60 + sec
  ⟨abs - unixToInternal - offset, nsec, offset⟩

/-- The year and the day of the year (from 0) of day number `d`, counted from
1 January of year 1: the first half of Go's `absDate`. -/
def absYear (d : Int) : Int × Int :=
  let n400 := d / 146097
  let d1 := d - 146097 * n400
  let n100 := d1 / 36524
  let n100 := n100 - n100 / 4
  let d2 := d1 - 36524 * n100
  let n4 := d2 / 1461
  let d3 := d2 - 1461 * n4
  let n := d3 / 365
  let n := n - n / 4
  (400 * n400 + 100 * n100 + 4 * n4 + n + 1, d3 - 365 * n)

/-- The month and the day of the month of day `yday` (from 0) of `year`: the
second half of Go's `absDate`. -/
def absMonthDay (year yday : Int) : Int × Int :=
  if isLeap year && yday = 31 + 29 - 1 then (2, 29)
  else
    let day := if isLeap year && yday > 31 + 29 - 1 then yday - 1 else yday
    let month := day / 31
    let e := daysBefore (month + 1)
    if day ≥ e then (month + 2, day - e + 1)
    else (month + 1, day - daysBefore month + 1)

/-- The seconds since 1 January of year 1, 00:00:00, on the wall clock of the
zone of `t` (Go's `Time.abs`, shifted as in `daysSinceEpoch`). -/
def Time.abs (t : Time) : Int := t.sec + t.offset + unixToInternal

/-- Go's `Time.Date`: year, month, day. -/
def Time.date (t : Time) : Int × Int × Int :=
  let yd := absYear (t.abs / 86400)
  let md := absMonthDay yd.1 yd.2
  (yd.1, md.1, md.2)

/-- Go's `Time.Clock`: hour, minute, second. -/
def Time.clock (t : Time) : Int × Int × Int :=
  let s := t.abs % 86400
  (s / 3600, s % 3600 / 60, s % 60)

/-! ### Durations -/

/-- The greatest and the least `time.Duration` (an `int64` of nanoseconds). -/
def maxDuration : Int := maxInt64

def minDuration : Int := minInt64

/-- The duration `time.Second`. -/
def Second : Int := 1000000000

/-- Go's `Time.Sub` for values without monotonic clock reading: the difference
in nanoseconds, or the greatest (least) duration when it does not fit. -/
def Time.Sub (t u : Time) : Int :=
  let d := (t.sec - u.sec) * 1000000000 + (t.nsec - u.nsec)
  if minDuration ≤ d ∧ d ≤ maxDuration then d
  else if d < 0 then minDuration
  else maxDuration

/-- Go's `Duration.Truncate`: rounding toward zero to a multiple of `m`. -/
def Truncate (d m : Int) : Int :=
  if m ≤ 0 then d else d - (if d < 0 then -((-d) % m) else d % m)

/-- Go's `fmtFrac`: the `prec` low digits of `v` as a fraction put in front of
`buf`, trailing zeros and a then needless point left out; also `v / 10^prec`.
`pr` tells whether a digit has been written. -/
def fmtFrac : Nat → Nat → Bool → List Char → List Char × Nat
  | 0, v, pr, buf => (if pr then '.' :: buf else buf, v)
  | prec + 1, v, pr, buf =>
    let digit := v % 10
    let pr := pr || digit != 0
    fmtFrac prec (v / 10) pr (if pr then digitChar digit :: buf else buf)

/-- Go's `fmtInt`: the decimal digits of `v` put in front of `buf`. -/
def fmtInt (v : Nat) (buf : List Char) : List Char := natDigits v ++ buf

/-- Go's `Duration.String`. -/
def durationString (d : Int) : List Char :=
  let u := d.natAbs
  let body : List Char :=
    if u < 1000000000 then
      if u = 0 then "0s".toList
      else if u < 1000 then fmtInt u "ns".toList
      else if u < 1000000 then
        let r := fmtFrac 3 u false "µs".toList
        fmtInt r.2 r.1
      else
        let r := fmtFrac 6 u false "ms".toList
        fmtInt r.2 r.1
    else
      let r := fmtFrac 9 u false "s".toList
      let u := r.2
      let buf := fmtInt (u % 60) r.1
      let u := u / 60
      if u > 0 then
        let buf := fmtInt (u % 60) ('m' :: buf)
        let u := u / 60
        if u > 0 then fmtInt u ('h' :: buf) else buf
      else buf
  if d < 0 then '-' :: body else body

end GoTime

/-! ## Package `time`: layouts, `Format` and `Parse` -/

namespace GoTime

/-- The layout elements that occur in the layouts of `parseTimestamp`, under
the names of Go's `time/format.go`. -/
inductive Std where
  /-- The element `2006`. -/
  | stdLongYear
  /-- The element `01`. -/
  | stdZeroMonth
  /-- The element `02`. -/
  | stdZeroDay
  /-- The element `15`. -/
  | stdHour
  /-- The element `04`. -/
  | stdZeroMinute
  /-- The element `05`. -/
  | stdZeroSecond
  /-- The element `.999999999`. -/
  | stdFracSecond9
  /-- The element `Z07:00`. -/
  | stdISO8601ColonTZ
  deriving DecidableEq, Repr

/-- A layout string cut the way `nextStdChunk` cuts it: the elements, each
with the literal text in front of it, and the literal text after the last. -/
structure Layout where
  text : String
  chunks : List (List Char × Std)
  rest : List Char
  deriving DecidableEq, Repr

/-! ### Formatting -/

/-- Go's `appendInt`: a sign for a negative `x`, then its decimal digits padded
with zeros on the left to `width`. -/
def appendInt (x : Int) (width : Nat) : List Char :=
  let digits := natDigits x.natAbs
  (if x < 0 then ['-'] else []) ++ List.replicate (width - digits.length) '0' ++ digits

/-- Go's `appendNano` for the element `.999999999`: nothing for zero, else a
point and the nine digits without their trailing zeros. -/
def appendNano (nanosec : Int) : List Char :=
  if nanosec = 0 then []
  else
    let b := ('.' :: appendInt nanosec 9).reverse.dropWhile (· = '0')
    (if b.head? = some '.' then b.tail else b).reverse

/-- What `Time.Format` writes for one layout element. -/
def formatStd (t : Time) : Std → List Char
  | .stdLongYear => appendInt t.date.1 4
  | .stdZeroMonth => appendInt t.date.2.1 2
  | .stdZeroDay => appendInt t.date.2.2 2
  | .stdHour => appendInt t.clock.1 2
  | .stdZeroMinute => appendInt t.clock.2.1 2
  | .stdZeroSecond => appendInt t.clock.2.2 2
  | .stdFracSecond9 => appendNano t.nsec
  | .stdISO8601ColonTZ =>
    if t.offset = 0 then ['Z']
    else
      let zone : Int := if t.offset < 0 then -((-t.offset) / 60) else t.offset / 60
      (if zone < 0 then ['-'] else ['+'])
        ++ appendInt (zone.natAbs / 60 : Nat) 2 ++ [':'] ++ appendInt (zone.natAbs % 60 : Nat) 2

/-- Go's `Time.Format`. -/
def Format (t : Time) (layout : Layout) : List Char :=
  (layout.chunks.map (fun c => c.1 ++ formatStd t c.2)).flatten ++ layout.rest

/-! ### Parsing -/

/-- Go's `getnum`: one or two digits (exactly two when `fixed`). -/
def getnum : List Char → Bool → Option (Nat × List Char)
  | [], _ => none
  | [c0], fixed =>
    if !isDigit c0 then none
    else if fixed then none
    else some (digitVal c0, [])
  | c0 :: c1 :: rest, fixed =>
    if !isDigit c0 then none
    else if !isDigit c1 then
      if fixed then none else some (digitVal c0, c1 :: rest)
    else some (digitVal c0 * 10 + digitVal c1, rest)

/-- Go's `leadingInt`: the leading digits of `s` as a number, with the rest;
`none` when the number passes `2^63`. -/
def leadingInt : List Char → Nat → Option (Nat × List Char)
  | [], x => some (x, [])
  | c :: rest, x =>
    if !isDigit c then some (x, c :: rest)
    else if x > 2 ^ 63 / 10 then none
    else
      let x := x * 10 + digitVal c
      if x > 2 ^ 63 then none else leadingInt rest x

/-- The `atoi` of package `time`: an optional sign, then digits up to the end. -/
def atoi (s : List Char) : Option Int :=
  let neg := decide (s.head? = some '-')
  let s := if s.head? = some '-' ∨ s.head? = some '+' then s.tail else s
  match leadingInt s 0 with
  | none => none
  | some (q, rem) =>
    if rem ≠ [] then none
    else
      let x := wrapInt64 q
      some (if neg then -x else x)

/-- Go's `cutspace`. -/
def cutspace (s : List Char) : List Char := s.dropWhile (· = ' ')

/-- Go's `skip(value, prefix)`: the literal text `pre` is taken off `value`; a
run of spaces in `pre` stands for any run of spaces in `value` (also none, at
the end of `value`).  `inSpaces` holds while the rest of such a run in `pre`
is being dropped. -/
def skipAux : Bool → List Char → List Char → Option (List Char)
  | _, value, [] => some value
  | inSpaces, value, p :: ps =>
    if p = ' ' then
      if inSpaces then skipAux true value ps
      else
        match value with
        | v :: _ => if v ≠ ' ' then none else skipAux true (cutspace value) ps
        | [] => skipAux true (cutspace value) ps
    else
      match value with
      | v :: vs => if v = p then skipAux false vs ps else none
      | [] => none

def skip (value pre : List Char) : Option (List Char) := skipAux false value pre

/-- Go's `commaOrPeriod`. -/
def commaOrPeriod (c : Char) : Bool := c = '.' || c = ','

/-- Go's `parseNanoseconds(value, nbytes)`: `value` starts with a separator
and digits; at most nine of the digits count, scaled to nanoseconds. -/
def parseNanoseconds (value : List Char) (nbytes : Nat) : Option Int :=
  match value with
  | [] => none
  | c :: _ =>
    if !commaOrPeriod c then none
    else
      let nbytes := if nbytes > 10 then 10 else nbytes
      match atoi ((value.take nbytes).drop 1) with
      | none => none
      | some ns => if ns < 0 then none else some (ns * 10 ^ (10 - nbytes))

/-- The fields `parse` collects, with their initial values. -/
structure Fields where
  year : Int := 0
  month : Int := -1
  day : Int := -1
  hour : Int := 0
  min : Int := 0
  sec : Int := 0
  nsec : Int := 0
  /-- Whether `z` is set; these layouts only ever set it to UTC. -/
  z : Bool := false
  zoneOffset : Int := -1
  deriving DecidableEq, Repr

/-- One turn of the `switch std & stdMask` in Go's `parse`: the element `std`
is read off `value`.  `next` is the element that follows in the layout, which
the seconds case looks at.  `none` stands for any error, also for a value out
of range (a month above 12, an hour above 23, a zone offset above 24 hours and
so on, as Go checks them since version 1.20). -/
def parseStd (std : Std) (next : Option Std) (f : Fields) (value : List Char) :
    Option (Fields × List Char) :=
  match std with
  | .stdLongYear =>
    if value.length < 4 || !(value.head?.any isDigit) then none
    else
      match atoi (value.take 4) with
      | none => none
      | some year => some ({ f with year := year }, value.drop 4)
  | .stdZeroMonth =>
    match getnum value true with
    | none => none
    | some (month, value) =>
      if month ≤ 0 ∨ 12 < month then none else some ({ f with month := month }, value)
  | .stdZeroDay =>
    match getnum value true with
    | none => none
    | some (day, value) => some ({ f with day := day }, value)
  | .stdHour =>
    match getnum value false with
    | none => none
    | some (hour, value) =>
      if 24 ≤ hour then none else some ({ f with hour := hour }, value)
  | .stdZeroMinute =>
    match getnum value true with
    | none => none
    | some (min, value) =>
      if 60 ≤ min then none else some ({ f with min := min }, value)
  | .stdZeroSecond =>
    match getnum value true with
    | none => none
    | some (sec, value) =>
      if 60 ≤ sec then none
      else
        let f := { f with sec := sec }
        match value with
        | c0 :: c1 :: tl =>
          if commaOrPeriod c0 && isDigit c1 then
            if next = some .stdFracSecond9 then some (f, value)
            else
              let n := 2 + (tl.takeWhile isDigit).length
              match parseNanoseconds value n with
              | none => none
              | some nsec => some ({ f with nsec := nsec }, value.drop n)
          else some (f, value)
        | _ => some (f, value)
  | .stdFracSecond9 =>
    match value with
    | c0 :: c1 :: tl =>
      if !commaOrPeriod c0 || !isDigit c1 then some (f, value)
      else
        let i := 1 + (tl.takeWhile isDigit).length
        match parseNanoseconds value (1 + i) with
        | none => none
        | some nsec => some ({ f with nsec := nsec }, value.drop (1 + i))
    | _ => some (f, value)
  | .stdISO8601ColonTZ =>
    if value.head? = some 'Z' then some ({ f with z := true }, value.drop 1)
    else if value.length < 6 then none
    else if value.get? 3 ≠ some ':' then none
    else
      match getnum ((value.take 3).drop 1) true, getnum ((value.take 6).drop 4) true with
      | some (hr, _), some (mm, _) =>
        if hr > 24 then none
        else if mm > 60 then none
        else
          let zoneOffset : Int := (hr * 60 + mm) * 60
          if value.head? = some '+' then some ({ f with zoneOffset := zoneOffset }, value.drop 6)
          else if value.head? = some '-' then
            some ({ f with zoneOffset := -zoneOffset }, value.drop 6)
          else none
      | _, _ => none

/-- The loop of Go's `parse` over the elements of the layout. -/
def parseChunks : List (List Char × Std) → Fields → List Char → Option (Fields × List Char)
  | [], f, value => some (f, value)
  | (pre, std) :: rest, f, value =>
    match skip value pre with
    | none => none
    | some value =>
      match parseStd std (rest.head?.map (·.2)) f value with
      | none => none
      | some (f, value) => parseChunks rest f value

/-- The end of Go's `parse`, after the elements have been read: the day must
exist in its month, and the instant is built from the fields: in UTC under
`Z`, shifted by a written offset, else in the default location (of fixed offset
`defaultOffset`).  `loc` is `time.Local`, whose zone is taken for the result
when it has the written offset.  `none` stands for an error. -/
def parse.build (f : Fields) (defaultOffset : Int) (loc : Location) : Option Time :=
  let month := if f.month < 0 then 1 else f.month
  let day := if f.day < 0 then 1 else f.day
  if day < 1 ∨ day > daysIn month f.year then none
  else if f.z then some (Date f.year month day f.hour f.min f.sec f.nsec 0)
  else if f.zoneOffset ≠ -1 then
    let t := Date f.year month day f.hour f.min f.sec f.nsec 0
    let t := { t with sec := t.sec - f.zoneOffset }
    let offset := loc t.sec
    if offset = f.zoneOffset then some { t with offset := offset }
    else some { t with offset := f.zoneOffset }
  else some (Date f.year month day f.hour f.min f.sec f.nsec defaultOffset)

/-- Go's `parse(layout, value, defaultLocation, local)` with a default location
of fixed offset `defaultOffset`: the elements are read, nothing may be left of
`value`, and the instant is built.  `none` stands for any error. -/
def parse (layout : Layout) (value : List Char) (defaultOffset : Int) (loc : Location) :
    Option Time :=
  match parseChunks layout.chunks {} value with
  | none => none
  | some (f, value) =>
    match skip value layout.rest with
    | none => none
    | some value =>
      if value ≠ [] then none
      else parse.build f defaultOffset loc

/-- Go's `time.Parse`: without a zone in `value` the time is read in UTC;
`loc` is the process's `time.Local`.  (The shortcut Go takes for the two
RFC 3339 layouts returns what `parse` returns, and falls back to it.) -/
def Parse (loc : Location) (layout : Layout) (value : List Char) : Option Time :=
  parse layout value 0 loc

/-- Go's `time.ParseInLocation` for a location of fixed offset: without a
zone in `value` the time is read in that location. -/
def ParseInLocation (layout : Layout) (value : List Char) (offset : Int) : Option Time :=
  parse layout value offset (FixedZone offset)

/-- The layout `time.RFC3339`. -/
def RFC3339 : Layout :=
  ⟨"2006-01-02T15:04:05Z07:00",
    [([], .stdLongYear), (['-'], .stdZeroMonth), (['-'], .stdZeroDay), (['T'], .stdHour),
      ([':'], .stdZeroMinute), ([':'], .stdZeroSecond), ([], .stdISO8601ColonTZ)], []⟩

/-- The layout `time.RFC3339Nano`. -/
def RFC3339Nano : Layout :=
  ⟨"2006-01-02T15:04:05.999999999Z07:00",
    [([], .stdLongYear), (['-'], .stdZeroMonth), (['-'], .stdZeroDay), (['T'], .stdHour),
      ([':'], .stdZeroMinute), ([':'], .stdZeroSecond), ([], .stdFracSecond9),
      ([], .stdISO8601ColonTZ)], []⟩

end GoTime

/-! ## The layouts of `parseTimestamp` in stages

The layouts share their leading elements.  The definitions of this section
name those runs of elements; the lemmas on `Parse` are stated with them. -/

namespace GoTime

/-- The elements `2006-01-02`. -/
def dateChunks : List (List Char × Std) :=
  [([], .stdLongYear), (['-'], .stdZeroMonth), (['-'], .stdZeroDay)]

/-- The elements `15:04` after the separator `sep`. -/
def clockChunks (sep : Char) : List (List Char × Std) :=
  [([sep], .stdHour), ([':'], .stdZeroMinute)]

/-- The element `:05`. -/
def secondChunks : List (List Char × Std) := [([':'], .stdZeroSecond)]

/-- The element `Z07:00`. -/
def zoneChunks : List (List Char × Std) := [([], .stdISO8601ColonTZ)]

/-- What `parse` does once the elements are read and `value` is what is left
of the input: nothing may be left. -/
def parse.finish (defaultOffset : Int) (loc : Location) (r : Fields × List Char) :
    Option Time :=
  if r.2 ≠ [] then none else parse.build r.1 defaultOffset loc

/-- The layouts of `parseTimestamp` that start with `2006-01-02`, as one
decision: the date is read, and what follows it decides which layout goes on. -/
def parseDateFirst (loc : Location) (s : List Char) : Option Time :=
  match parseChunks dateChunks {} s with
  | none => none
  | some (f1, []) => parse.build f1 0 loc
  | some (f1, v1) =>
    let afterClock : Fields × List Char → Bool → Option Time := fun r2 zoned =>
      if r2.2 = [] then parse.build r2.1 0 loc
      else
        match parseChunks secondChunks r2.1 r2.2 with
        | none => none
        | some r3 =>
          if r3.2 = [] then parse.build r3.1 0 loc
          else if zoned then (parseChunks zoneChunks r3.1 r3.2).bind (parse.finish 0 loc)
          else none
    match parseChunks (clockChunks 'T') f1 v1 with
    | some r2 => afterClock r2 true
    | none =>
      match parseChunks (clockChunks ' ') f1 v1 with
      | some r2 => afterClock r2 false
      | none => none

end GoTime

/-! ## `cmd/import/main.go`: `parseTimestamp` -/

namespace Import

open GoTime

/-- The layout `"02/01/2006,15:04"`. -/
def layoutDayFirst : Layout :=
  ⟨"02/01/2006,15:04",
    [([], .stdZeroDay), (['/'], .stdZeroMonth), (['/'], .stdLongYear), ([','], .stdHour),
      ([':'], .stdZeroMinute)], []⟩

/-- The layout `"2006-01-02T15:04:05"`. -/
def layoutSecondsT : Layout :=
  ⟨"2006-01-02T15:04:05",
    [([], .stdLongYear), (['-'], .stdZeroMonth), (['-'], .stdZeroDay), (['T'], .stdHour),
      ([':'], .stdZeroMinute), ([':'], .stdZeroSecond)], []⟩

/-- The layout `"2006-01-02 15:04:05"`. -/
def layoutSeconds : Layout :=
  ⟨"2006-01-02 15:04:05",
    [([], .stdLongYear), (['-'], .stdZeroMonth), (['-'], .stdZeroDay), ([' '], .stdHour),
      ([':'], .stdZeroMinute), ([':'], .stdZeroSecond)], []⟩

/-- The layout `"2006-01-02T15:04"`. -/
def layoutMinutesT : Layout :=
  ⟨"2006-01-02T15:04",
    [([], .stdLongYear), (['-'], .stdZeroMonth), (['-'], .stdZeroDay), (['T'], .stdHour),
      ([':'], .stdZeroMinute)], []⟩

/-- The layout `"2006-01-02 15:04"`. -/
def layoutMinutes : Layout :=
  ⟨"2006-01-02 15:04",
    [([], .stdLongYear), (['-'], .stdZeroMonth), (['-'], .stdZeroDay), ([' '], .stdHour),
      ([':'], .stdZeroMinute)], []⟩

/-- The layout `"2006-01-02"`. -/
def layoutDate : Layout :=
  ⟨"2006-01-02", [([], .stdLongYear), (['-'], .stdZeroMonth), (['-'], .stdZeroDay)], []⟩

/-- The slice `formats` of `parseTimestamp`. -/
def formats : List Layout :=
  [layoutDayFirst, RFC3339, RFC3339Nano, layoutSecondsT, layoutSeconds, layoutMinutesT,
    layoutMinutes, layoutDate]

/-- The loop `for _, format := range formats` of `parseTimestamp` over the
layouts still to try, and the error after it. -/
def parseTimestamp.loop (loc : Location) (s : List Char) : List Layout → Except String Time
  | [] => .error "unrecognized format"
  | format :: rest =>
    match Parse loc format s with
    | some t => .ok t
    | none => parseTimestamp.loop loc s rest

/-- `parseTimestamp` of `cmd/import/main.go`; `loc` is the process's local
time zone, which `time.Parse` consults. -/
def parseTimestamp (loc : Location) (s : List Char) : Except String Time :=
  parseTimestamp.loop loc s formats

end Import

namespace Import

open GoTime

/-- The layouts of `formats` that carry no zone. -/
def zoneless : List Layout :=
  [layoutDayFirst, layoutSecondsT, layoutSeconds, layoutMinutesT, layoutMinutes, layoutDate]

end Import

/-! ## `internal/loki/client.go` -/

namespace Loki

open GoTime

/-- A Go `map[string]string`, given as its entries in the order in which a
`range` statement visits them.  Go leaves that order open, so the theorems
hold for every order. -/
abbrev Labels := List (List Char × List Char)

/-- The struct `stream`. -/
structure stream where
  Stream : Labels
  Values : List (List (List Char))
  deriving DecidableEq, Repr

/-- The struct `pushRequest`, the value that `json.Marshal` turns into the
body of the push request. -/
structure pushRequest where
  Streams : List stream
  deriving DecidableEq, Repr

/-- What a function of the client hands back: a value, an error (with the
text that `fmt.Errorf` puts in front), or a run-time panic that unwinds the
caller. -/
inductive Outcome (α : Type) where
  | ok (v : α)
  | error (msg : String)
  | panic (msg : String)
  deriving DecidableEq, Repr

/-- The answer of the HTTP client to a request: a transport error, or a
response with its status code. -/
inductive PostResult where
  | transportError
  | response (StatusCode : Nat)
  deriving DecidableEq, Repr

/-- The request value that `Push` builds. -/
def Push.req (labels : Labels) (timestamp : Time) (line : List Char) : pushRequest :=
  { Streams := [{ Stream := labels, Values := [[FormatInt timestamp.UnixNano, line]] }] }

/-- `Client.Push`: the request is built and posted (`post` is the HTTP
client); any status other than 204 and 200 is an error.  (`json.Marshal` does
not fail on a `pushRequest`, so that error does not occur.) -/
def Push (post : pushRequest → PostResult) (labels : Labels) (timestamp : Time)
    (line : List Char) : Outcome Unit :=
  match post (Push.req labels timestamp line) with
  | .transportError => .error "push to loki"
  | .response StatusCode =>
    if StatusCode ≠ 204 ∧ StatusCode ≠ 200 then .error "loki push failed"
    else .ok ()

/-- A value that `encoding/json` stores in an `interface{}`: `nil`, a `bool`,
a `float64` (kept as the text of the JSON number), a `string`, or a
composite value (not looked into). -/
inductive JsonValue where
  | null
  | bool (b : Bool)
  | number (text : List Char)
  | string (s : List Char)
  | composite
  deriving DecidableEq, Repr

/-- An element of `queryResponse.Data.Result`. -/
structure Series where
  Value : List JsonValue
  Values : List (List (List Char))
  deriving DecidableEq, Repr

/-- The field `Data` of `queryResponse`. -/
structure queryData where
  ResultType : List Char
  Result : List Series
  deriving DecidableEq, Repr

/-- The struct `queryResponse`: a decoded response body. -/
structure queryResponse where
  Status : List Char
  Data : queryData
  deriving DecidableEq, Repr

/-- The loop of `CountSince` and `LastTimestamp` that writes the labels:
`sel` is `labelSelector` so far, `first` the flag of that name. -/
def labelSelector.loop : Labels → List Char → Bool → List Char
  | [], sel, _ => sel
  | (k, v) :: rest, sel, first =>
    let sel := if !first then sel ++ [','] else sel
    labelSelector.loop rest (sel ++ (k ++ ['=', '"'] ++ v ++ ['"'])) false

/-- The string `labelSelector` that `CountSince` and `LastTimestamp` build. -/
def labelSelector (labels : Labels) : List Char :=
  labelSelector.loop labels ['{'] true ++ ['}']

/-- The variable `duration` of `CountSince`, `now` being the clock reading
of `time.Since`. -/
def CountSince.duration (now since : Time) : Int :=
  let duration := Truncate (now.Sub since) Second
  if duration < Second then Second else duration

/-- The string `query` of `CountSince`. -/
def CountSince.query (labels : Labels) (now since : Time) : List Char :=
  "count_over_time(".toList ++ labelSelector labels ++ ['['] ++
    durationString (CountSince.duration now since) ++ "])".toList

/-- The part of `CountSince` after the body has been decoded into `result`.
An index expression is written with its bounds check, which panics. -/
def CountSince.decoded (result : queryResponse) : Outcome Int :=
  if result.Data.Result.length = 0 then .ok 0
  else
    match result.Data.Result.get? 0 with
    | none => .panic "index out of range"
    | some r0 =>
      if r0.Value.length < 2 then .ok 0
      else
        match r0.Value.get? 1 with
        | none => .panic "index out of range"
        | some (.string countStr) =>
          match Atoi countStr with
          | .error _ => .error "parse count"
          | .ok count => .ok count
        | some _ => .error "unexpected count type"

/-- The answer of the HTTP client to a query: a transport error, or a response
with its status code and the result of decoding its body (`none` when
`Decode` fails). -/
inductive GetResult where
  | transportError
  | response (StatusCode : Nat) (body : Option queryResponse)
  deriving DecidableEq, Repr

/-- `Client.CountSince`; `get` is the HTTP client, asked with the query
string, `now` the clock reading. -/
def CountSince (get : List Char → GetResult) (labels : Labels) (now since : Time) :
    Outcome Int :=
  match get (CountSince.query labels now since) with
  | .transportError => .error "query loki"
  | .response StatusCode body =>
    if StatusCode ≠ 200 then .error "loki query failed"
    else
      match body with
      | none => .error "decode query response"
      | some result => CountSince.decoded result

/-- The part of `LastTimestamp` after the body has been decoded into `result`;
`loc` is the process's local time zone, in which `time.Unix` puts its result.
An index expression is written with its bounds check, which panics. -/
def LastTimestamp.decoded (loc : Location) (result : queryResponse) : Outcome Time :=
  let noEntries : Bool :=
    result.Data.Result.length = 0 ||
      (match result.Data.Result.get? 0 with
        | none => true
        | some r0 => r0.Values.length = 0)
  if noEntries then .ok zeroTime
  else
    match result.Data.Result.get? 0 with
    | none => .panic "index out of range"
    | some r0 =>
      match r0.Values.get? 0 with
      | none => .panic "index out of range"
      | some entry =>
        match entry.get? 0 with
        | none => .panic "index out of range [0] with length 0"
        | some tsStr =>
          match ParseInt tsStr with
          | .error _ => .error "parse timestamp"
          | .ok tsNano => .ok (Unix loc tsNano)

/-- `Client.LastTimestamp`; `get` is the HTTP client, asked with the label
selector. -/
def LastTimestamp (get : List Char → GetResult) (loc : Location) (labels : Labels) :
    Outcome Time :=
  match get (labelSelector labels) with
  | .transportError => .error "query loki"
  | .response StatusCode body =>
    if StatusCode ≠ 200 then .error "loki query failed"
    else
      match body with
      | none => .error "decode query response"
      | some result => LastTimestamp.decoded loc result

end Loki

/-! ## `cmd/import/main.go`: the import loop -/

namespace Import

open GoTime Loki

/-- The label set of the importer. -/
def labels : Labels := [("app".toList, "counter".toList)]

end Import

namespace Import

open GoTime Loki

end Import

/-! ## Notions of the specification -/

namespace Spec

open GoTime Loki

/-- The number that a string of digits denotes. -/
def digitsValue (ds : List Char) : Nat := ds.foldl (fun n c => n * 10 + digitVal c) 0

/-- The integer that a string holds when it holds a decimal integer: an
optional sign, then one digit or more, and nothing else. -/
def decimalValue (s : List Char) : Option Int :=
  let digits := if s.head? = some '+' ∨ s.head? = some '-' then s.tail else s
  if digits = [] ∨ digits.all isDigit = false then none
  else if s.head? = some '-' then some (-(digitsValue digits : Int))
  else some (digitsValue digits : Int)

/-- A label set rendered as the specification words it: each label written
`key="value"`, the labels joined by commas, braces around the whole. -/
def selector (labels : Labels) : List Char :=
  ['{'] ++ [','].intercalate (labels.map (fun kv => kv.1 ++ ['=', '"'] ++ kv.2 ++ ['"']))
    ++ ['}']

/-- The window of the specification: `now - since` floored to whole seconds,
and one second when that is less than one second.  In nanoseconds. -/
def window (now since : Time) : Int :=
  let d := (now.nanosSinceEpoch - since.nanosSinceEpoch) / 1000000000 * 1000000000
  if d < 1000000000 then 1000000000 else d

/-- The window of the specification, with `now - since` first capped at the
greatest `time.Duration`. -/
def cappedWindow (now since : Time) : Int :=
  let d := min (now.nanosSinceEpoch - since.nanosSinceEpoch) maxDuration
  let d := d / 1000000000 * 1000000000
  if d < 1000000000 then 1000000000 else d

end Spec

namespace Spec

open GoTime

/-- Whether a layout has the element `std`. -/
def hasStd (L : Layout) (std : Std) : Bool := L.chunks.any (fun c => decide (c.2 = std))

/-- An instant that a layout writes without loss.  On the clock of its zone
the year has four digits; every part that the layout has no element for is
zero (the fraction of a second, the seconds, the time of the day); the zone is
UTC, or, when the layout writes the zone, any zone whose offset is a whole
number of minutes, less than 25 hours. -/
def writable (L : Layout) (t : Time) : Prop :=
  0 ≤ t.date.1 ∧ t.date.1 ≤ 9999 ∧
  0 ≤ t.nsec ∧ t.nsec < 1000000000 ∧
  (hasStd L .stdFracSecond9 = false → t.nsec = 0) ∧
  (hasStd L .stdZeroSecond = false → t.clock.2.2 = 0) ∧
  (hasStd L .stdHour = false → t.clock.1 = 0 ∧ t.clock.2.1 = 0) ∧
  (if hasStd L .stdISO8601ColonTZ then
      t.offset % 60 = 0 ∧ -90000 < t.offset ∧ t.offset < 90000
    else t.offset = 0)

instance (L : Layout) (t : Time) : Decidable (writable L t) := by
  unfold writable
  infer_instance

end Spec

/-! ## `cmd/server/main.go` -/

namespace Server

/-- The part of an `http.Request` that `clientIP` reads: the header map (from a
canonical header name to the values received under it) and `RemoteAddr`. -/
structure Request where
  Header : String → List (List Char)
  RemoteAddr : List Char

/-- Go's `Header.Get`: the first value stored under the key, `""` when none. -/
def Request.Get (r : Request) (key : String) : List Char :=
  match r.Header key with
  | [] => []
  | v :: _ => v

/-- The loop `for i, c := range xff { if c == ',' { return xff[:i] } }`.
`seen` is `xff[:i]`, the second argument what is still to be scanned; `none`
when the loop ends without returning. -/
def clientIP.scan (seen : List Char) : List Char → Option (List Char)
  | [] => none
  | c :: rest => if c = ',' then some seen else clientIP.scan (seen ++ [c]) rest

/-- `clientIP` of `cmd/server/main.go`. -/
def clientIP (r : Request) : List Char :=
  let xff := r.Get "X-Forwarded-For"
  let fallback : List Char :=
    let xri := r.Get "X-Real-IP"
    if xri ≠ [] then xri
    else
      match SplitHostPort r.RemoteAddr with
      | .error _ => r.RemoteAddr
      | .ok (host, _) => host
  if xff ≠ [] then
    if xff.length > 0 then
      match clientIP.scan [] xff with
      | some head => head
      | none => xff
    else fallback
  else fallback

/-- The request with the given `X-Forwarded-For` and `X-Real-IP` values (an
empty string for an absent header) and remote address. -/
def mkRequest (xff xri remote : String) : Request where
  Header := fun key =>
    if key = "X-Forwarded-For" then (if xff = "" then [] else [xff.toList])
    else if key = "X-Real-IP" then (if xri = "" then [] else [xri.toList])
    else []
  RemoteAddr := remote.toList

end Server


/-! # Theorems -/

/-! ## Decimal numerals -/

theorem toNat_digitChar (d : Nat) (h : d < 10) : (digitChar d).toNat = 48 + d := by
  unfold digitChar
  interval_cases d <;> rfl

theorem isDigit_digitChar (d : Nat) (h : d < 10) : isDigit (digitChar d) = true := by
  simp only [isDigit, toNat_digitChar d h, Bool.and_eq_true, decide_eq_true_eq]
  omega

theorem digitVal_digitChar (d : Nat) (h : d < 10) : digitVal (digitChar d) = d := by
  simp only [digitVal, toNat_digitChar d h]
  omega

theorem digitVal_lt (c : Char) (h : isDigit c = true) : digitVal c < 10 := by
  simp only [isDigit, Bool.and_eq_true, decide_eq_true_eq] at h
  unfold digitVal
  omega

theorem isDigit_ne (c x : Char) (h : isDigit c = true) (hx : isDigit x = false) : c ≠ x := by
  intro hc
  rw [hc, hx] at h
  exact Bool.false_ne_true h

namespace Spec

theorem digitsValue_append (ds : List Char) (c : Char) :
    digitsValue (ds ++ [c]) = digitsValue ds * 10 + digitVal c := by
  simp [digitsValue, List.foldl_append]

theorem foldl_digits_ge (ds : List Char) (n : Nat) :
    n ≤ ds.foldl (fun n c => n * 10 + digitVal c) n := by
  induction ds generalizing n with
  | nil => simp
  | cons c rest ih =>
    simp only [List.foldl_cons]
    have := ih (n * 10 + digitVal c)
    omega

end Spec

open Spec in
/-- The digit loop of `ParseUint` succeeds exactly on digits whose value, read
on from `n`, does not pass `2^64 - 1`. -/
theorem ParseUint_loop_ok_iff (s : List Char) (n m : Nat) :
    ParseUint.loop s n = .ok m ↔
      s.all isDigit = true ∧ s.foldl (fun n c => n * 10 + digitVal c) n = m
        ∧ (s = [] ∨ m ≤ 2 ^ 64 - 1) := by
  induction s generalizing n with
  | nil => simp [ParseUint.loop]
  | cons c rest ih =>
    unfold ParseUint.loop
    by_cases hc : isDigit c = true
    swap
    · simp [hc]
    have hv := digitVal_lt c hc
    have hge := foldl_digits_ge rest (n * 10 + digitVal c)
    simp only [hc, Bool.not_true, Bool.false_eq_true, if_false, List.all_cons, Bool.true_and,
      List.foldl_cons]
    have hcons : ∀ m : Nat, (c :: rest = [] ∨ m ≤ 2 ^ 64 - 1) ↔ m ≤ 2 ^ 64 - 1 := by
      intro m
      simp
    rw [hcons]
    by_cases h1 : n ≥ (2 ^ 64 - 1) / 10 + 1
    · simp only [h1, if_true]
      constructor
      · intro h; cases h
      · rintro ⟨_, hm, hle⟩
        exfalso
        norm_num at h1 hle
        omega
    · simp only [h1, if_false]
      by_cases h2 : n * 10 + digitVal c > 2 ^ 64 - 1
      · simp only [h2, if_true]
        constructor
        · intro h; cases h
        · rintro ⟨_, hm, hle⟩
          exfalso
          omega
      · simp only [h2, if_false, ih]
        constructor
        · rintro ⟨ha, hm, hle⟩
          refine ⟨ha, hm, ?_⟩
          rcases hle with hr | hle
          · subst hr
            simp only [List.foldl_nil] at hm
            omega
          · exact hle
        · rintro ⟨ha, hm, hle⟩
          exact ⟨ha, hm, Or.inr hle⟩

open Spec in
/-- `ParseInt` returns `v` exactly when the string holds the decimal integer
`v` and `v` is an `int64`. -/
theorem ParseInt_ok_iff (s : List Char) (v : Int) :
    ParseInt s = .ok v ↔ decimalValue s = some v ∧ minInt64 ≤ v ∧ v ≤ maxInt64 := by
  cases s with
  | nil => simp [ParseInt, decimalValue]
  | cons c rest =>
    simp only [ParseInt, decimalValue, List.head?_cons, Option.some.injEq, List.tail_cons,
      minInt64, maxInt64]
    generalize hdg : (if c = '+' ∨ c = '-' then rest else c :: rest) = digits
    by_cases hd : digits = []
    · simp [hd, ParseUint]
    simp only [ParseUint, hd, if_false, false_or]
    have key := ParseUint_loop_ok_iff digits 0
    simp only [hd, false_or] at key
    change ∀ m, ParseUint.loop digits 0 = .ok m ↔
      digits.all isDigit = true ∧ digitsValue digits = m ∧ m ≤ 2 ^ 64 - 1 at key
    by_cases hall : digits.all isDigit = true
    swap
    · have hnone : ∀ m, ParseUint.loop digits 0 ≠ .ok m := fun m hm => hall ((key m).1 hm).1
      simp only [Bool.not_eq_true] at hall
      rw [hall]
      simp only [if_true]
      constructor
      · intro h
        cases hl : ParseUint.loop digits 0 with
        | error e => rw [hl] at h; cases h
        | ok un => exact absurd hl (hnone un)
      · rintro ⟨h, _⟩
        cases h
    rw [hall]
    simp only [Bool.true_eq_false, if_false]
    cases hl : ParseUint.loop digits 0 with
    | error e =>
      have hbig : ¬ digitsValue digits ≤ 2 ^ 64 - 1 := by
        intro hle
        have := (key (digitsValue digits)).2 ⟨hall, rfl, hle⟩
        rw [hl] at this
        cases this
      constructor
      · intro h; cases h
      · rintro ⟨h, h1, h2⟩
        exfalso
        split_ifs at h <;> simp only [Option.some.injEq] at h <;> omega
    | ok un =>
      obtain ⟨_, hval, hle⟩ := (key un).1 hl
      rw [hval]
      by_cases hneg : c = '-'
      · simp only [hneg, decide_True, Bool.not_true, Bool.false_and, Bool.false_eq_true,
          if_false, Bool.true_and, decide_eq_true_eq, if_true]
        split_ifs with h1
        · constructor
          · intro h; cases h
          · rintro ⟨h, h2, h3⟩
            simp only [Option.some.injEq] at h
            omega
        · constructor
          · intro h
            simp only [Except.ok.injEq] at h
            refine ⟨by rw [h], ?_, ?_⟩ <;> omega
          · rintro ⟨h, _⟩
            simp only [Option.some.injEq] at h
            rw [h]
      · simp only [hneg, decide_False, Bool.not_false, Bool.true_and, decide_eq_true_eq,
          Bool.false_and, Bool.false_eq_true, if_false]
        split_ifs with h1
        · constructor
          · intro h; cases h
          · rintro ⟨h, h2, h3⟩
            simp only [Option.some.injEq] at h
            omega
        · constructor
          · intro h
            simp only [Except.ok.injEq] at h
            refine ⟨by rw [h], ?_, ?_⟩ <;> omega
          · rintro ⟨h, _⟩
            simp only [Option.some.injEq] at h
            rw [h]

namespace Spec

theorem formatBits_spec (fuel u : Nat) (acc : List Char) (h : u < fuel) :
    ∃ ds, formatBits fuel u acc = ds ++ acc ∧ ds ≠ [] ∧ ds.all isDigit = true
      ∧ digitsValue ds = u := by
  induction fuel generalizing u acc with
  | zero => omega
  | succ fuel ih =>
    unfold formatBits
    by_cases hu : u < 10
    · refine ⟨[digitChar u], by simp [hu], by simp, ?_, ?_⟩
      · simp [isDigit_digitChar u hu]
      · simp [digitsValue, digitVal_digitChar u hu]
    · obtain ⟨ds, h1, h2, h3, h4⟩ := ih (u / 10) (digitChar (u % 10) :: acc) (by omega)
      have hm : u % 10 < 10 := Nat.mod_lt _ (by norm_num)
      refine ⟨ds ++ [digitChar (u % 10)], by simp [hu, h1], by simp, ?_, ?_⟩
      · simp [h3, isDigit_digitChar _ hm]
      · rw [digitsValue_append, h4, digitVal_digitChar _ hm]
        omega

theorem natDigits_spec (u : Nat) :
    natDigits u ≠ [] ∧ (natDigits u).all isDigit = true ∧ digitsValue (natDigits u) = u := by
  obtain ⟨ds, h1, h2, h3, h4⟩ := formatBits_spec (u + 1) u [] (by omega)
  simp only [List.append_nil] at h1
  unfold natDigits
  rw [h1]
  exact ⟨h2, h3, h4⟩

theorem head_natDigits (u : Nat) :
    (natDigits u).head? ≠ some '+' ∧ (natDigits u).head? ≠ some '-' := by
  obtain ⟨h1, h2, _⟩ := natDigits_spec u
  cases hd : natDigits u with
  | nil => exact absurd hd h1
  | cons c rest =>
    rw [hd] at h2
    simp only [List.all_cons, Bool.and_eq_true] at h2
    simp only [List.head?_cons, ne_eq, Option.some.injEq]
    exact ⟨isDigit_ne c '+' h2.1 (by decide), isDigit_ne c '-' h2.1 (by decide)⟩

/-- `FormatInt` writes a string that holds the decimal integer it was given. -/
theorem decimalValue_FormatInt (n : Int) : decimalValue (FormatInt n) = some n := by
  unfold FormatInt
  by_cases hn : n < 0
  · obtain ⟨h1, h2, h3⟩ := natDigits_spec (-n).toNat
    have hc : ((-n).toNat : Int) = -n := Int.toNat_of_nonneg (by omega)
    simp only [hn, if_true, decimalValue, List.head?_cons, Option.some.injEq, List.tail_cons,
      show ('-' : Char) ≠ '+' by decide, or_true, if_true, false_or, h1, h2, h3,
      Bool.true_eq_false, if_false, Option.some.injEq, hc]
    omega
  · obtain ⟨h1, h2, h3⟩ := natDigits_spec n.toNat
    obtain ⟨h4, h5⟩ := head_natDigits n.toNat
    have hc : (n.toNat : Int) = n := Int.toNat_of_nonneg (by omega)
    simp only [hn, if_false, decimalValue, h4, h5, or_self, h1, h2, h3, false_or,
      Bool.true_eq_false, Option.some.injEq, hc]

end Spec

open Spec in
/-- `ParseInt` reads back what `FormatInt` writes for an `int64`. -/
theorem ParseInt_FormatInt (n : Int) (h1 : minInt64 ≤ n) (h2 : n ≤ maxInt64) :
    ParseInt (FormatInt n) = .ok n :=
  (ParseInt_ok_iff _ _).2 ⟨decimalValue_FormatInt n, h1, h2⟩

/-! ## Numbers written with a fixed number of digits -/

namespace GoTime

theorem formatBits_fuel (fuel : Nat) : ∀ (u : Nat) (acc : List Char), u < fuel →
    formatBits fuel u acc = formatBits (u + 1) u [] ++ acc := by
  induction fuel using Nat.strong_induction_on with
  | _ fuel ih =>
    intro u acc hu
    cases fuel with
    | zero => omega
    | succ fuel =>
      by_cases h10 : u < 10
      · simp [formatBits, h10]
      · have hq : u / 10 < fuel := by omega
        have hq' : u / 10 < u := by omega
        have e1 : formatBits (fuel + 1) u acc
            = formatBits fuel (u / 10) (digitChar (u % 10) :: acc) := by
          simp [formatBits, h10]
        have e2 : formatBits (u + 1) u []
            = formatBits u (u / 10) [digitChar (u % 10)] := by
          simp [formatBits, h10]
        rw [e1, e2, ih fuel (by omega) (u / 10) _ hq, ih u (by omega) (u / 10) _ hq']
        simp

/-- The digits of a number: one digit below ten, else the digits of the tenth
part and the last digit. -/
theorem natDigits_eq (u : Nat) :
    natDigits u = if u < 10 then [digitChar u] else natDigits (u / 10) ++ [digitChar (u % 10)] := by
  unfold natDigits
  by_cases h10 : u < 10
  · simp [formatBits, h10]
  · have e2 : formatBits (u + 1) u [] = formatBits u (u / 10) [digitChar (u % 10)] := by
      simp [formatBits, h10]
    rw [e2, formatBits_fuel u (u / 10) _ (by omega)]
    simp [h10]

theorem digitChar_zero : digitChar 0 = '0' := rfl

/-- Two digits. -/
theorem appendInt_two (x : Int) (h0 : 0 ≤ x) (h1 : x < 100) :
    appendInt x 2 = [digitChar (x.toNat / 10), digitChar (x.toNat % 10)] := by
  obtain ⟨n, rfl⟩ := Int.eq_ofNat_of_zero_le h0
  have hn : n < 100 := by omega
  simp only [appendInt, Int.natAbs_ofNat, Int.toNat_ofNat, show ¬ ((n : Int) < 0) by omega,
    if_false, List.nil_append]
  rw [natDigits_eq n]
  by_cases h10 : n < 10
  · have : n / 10 = 0 := by omega
    have : n % 10 = n := by omega
    simp [h10, *, digitChar_zero]
  · rw [natDigits_eq (n / 10)]
    have : n / 10 < 10 := by omega
    simp [h10, *]

/-- Four digits. -/
theorem appendInt_four (x : Int) (h0 : 0 ≤ x) (h1 : x < 10000) :
    appendInt x 4 = [digitChar (x.toNat / 1000), digitChar (x.toNat / 100 % 10),
      digitChar (x.toNat / 10 % 10), digitChar (x.toNat % 10)] := by
  obtain ⟨n, rfl⟩ := Int.eq_ofNat_of_zero_le h0
  have hn : n < 10000 := by omega
  simp only [appendInt, Int.natAbs_ofNat, Int.toNat_ofNat, show ¬ ((n : Int) < 0) by omega,
    if_false, List.nil_append]
  rw [natDigits_eq n]
  by_cases h10 : n < 10
  · have a1 : n / 1000 = 0 := by omega
    have a2 : n / 100 % 10 = 0 := by omega
    have a3 : n / 10 % 10 = 0 := by omega
    have a4 : n % 10 = n := by omega
    simp [h10, a1, a2, a3, a4, digitChar_zero, List.replicate]
  rw [natDigits_eq (n / 10)]
  by_cases h100 : n < 100
  · have a1 : n / 1000 = 0 := by omega
    have a2 : n / 100 % 10 = 0 := by omega
    have a3 : n / 10 % 10 = n / 10 := by omega
    have a4 : n / 10 < 10 := by omega
    simp [h10, a1, a2, a3, a4, digitChar_zero, List.replicate]
  rw [natDigits_eq (n / 10 / 10)]
  by_cases h1000 : n < 1000
  · have a1 : n / 1000 = 0 := by omega
    have a2 : n / 100 % 10 = n / 10 / 10 := by omega
    have a3 : n / 10 % 10 = n / 10 % 10 := rfl
    have a4 : ¬ n / 10 < 10 := by omega
    have a5 : n / 10 / 10 < 10 := by omega
    simp [h10, a1, a2, a4, a5, digitChar_zero, List.replicate]
  · rw [natDigits_eq (n / 10 / 10 / 10)]
    have a1 : n / 1000 = n / 10 / 10 / 10 := by omega
    have a2 : n / 100 % 10 = n / 10 / 10 % 10 := by omega
    have a4 : ¬ n / 10 < 10 := by omega
    have a5 : ¬ n / 10 / 10 < 10 := by omega
    have a6 : n / 10 / 10 / 10 < 10 := by omega
    simp [h10, a1, a2, a4, a5, a6]

end GoTime

/-! ## Reading back a number written with a fixed number of digits -/

namespace GoTime

theorem getnum_two (a b : Nat) (ha : a < 10) (hb : b < 10) (rest : List Char) (fixed : Bool) :
    getnum (digitChar a :: digitChar b :: rest) fixed = some (a * 10 + b, rest) := by
  simp [getnum, isDigit_digitChar a ha, isDigit_digitChar b hb, digitVal_digitChar a ha,
    digitVal_digitChar b hb]

/-- `getnum` reads back a number written with two digits. -/
theorem getnum_appendInt (x : Int) (h0 : 0 ≤ x) (h1 : x < 100) (rest : List Char)
    (fixed : Bool) : getnum (appendInt x 2 ++ rest) fixed = some (x.toNat, rest) := by
  rw [appendInt_two x h0 h1]
  have := getnum_two (x.toNat / 10) (x.toNat % 10) (by omega) (by omega) rest fixed
  simp only [List.cons_append, List.nil_append]
  rw [this]
  congr 2
  omega

theorem atoi_four (a b c d : Nat) (ha : a < 10) (hb : b < 10) (hc : c < 10) (hd : d < 10) :
    atoi [digitChar a, digitChar b, digitChar c, digitChar d]
      = some ((a * 1000 + b * 100 + c * 10 + d : Nat) : Int) := by
  have hm : digitChar a ≠ '-' := isDigit_ne _ '-' (isDigit_digitChar a ha) (by decide)
  have hp : digitChar a ≠ '+' := isDigit_ne _ '+' (isDigit_digitChar a ha) (by decide)
  have e1 : ¬ (922337203685477580 < a) := by omega
  have e2 : ¬ (9223372036854775808 < a) := by omega
  have e3 : ¬ (922337203685477580 < a * 10 + b) := by omega
  have e4 : ¬ (9223372036854775808 < a * 10 + b) := by omega
  have e5 : ¬ (922337203685477580 < (a * 10 + b) * 10 + c) := by omega
  have e6 : ¬ (9223372036854775808 < (a * 10 + b) * 10 + c) := by omega
  have e7 : ¬ (9223372036854775808 < ((a * 10 + b) * 10 + c) * 10 + d) := by omega
  have hw : wrapInt64 ((((a * 10 + b) * 10 + c) * 10 + d : Nat) : Int)
      = ((a * 1000 + b * 100 + c * 10 + d : Nat) : Int) := by
    unfold wrapInt64
    omega
  simp [atoi, hm, hp, leadingInt, isDigit_digitChar, digitVal_digitChar, ha, hb, hc, hd, e1, e2,
    e3, e4, e5, e6, e7]
  simpa using hw

/-- The year element reads back a year written with four digits. -/
theorem parseStd_year (y : Int) (h0 : 0 ≤ y) (h1 : y ≤ 9999) (next : Option Std) (f : Fields)
    (rest : List Char) :
    parseStd .stdLongYear next f (appendInt y 4 ++ rest) = some ({ f with year := y }, rest) := by
  rw [appendInt_four y h0 (by omega)]
  obtain ⟨n, rfl⟩ := Int.eq_ofNat_of_zero_le h0
  have hn : n ≤ 9999 := by omega
  have h := atoi_four (n / 1000) (n / 100 % 10) (n / 10 % 10) (n % 10) (by omega) (by omega)
    (by omega) (by omega)
  have hv : n / 1000 * 1000 + n / 100 % 10 * 100 + n / 10 % 10 * 10 + n % 10 = n := by omega
  rw [hv] at h
  simp only [parseStd, Int.toNat_ofNat, List.cons_append, List.nil_append, List.length_cons,
    List.head?_cons, Option.any_some, isDigit_digitChar (n / 1000) (by omega), List.take,
    List.drop]
  have hlen : ¬ (rest.length + 1 + 1 + 1 + 1 < 4) := by omega
  simp only [hlen, decide_False, Bool.not_true, Bool.or_self, Bool.false_eq_true, if_false, h]
  all_goals rfl

theorem parseStd_month (m : Int) (h0 : 1 ≤ m) (h1 : m ≤ 12) (next : Option Std) (f : Fields)
    (rest : List Char) :
    parseStd .stdZeroMonth next f (appendInt m 2 ++ rest) = some ({ f with month := m }, rest) := by
  have hc : (m.toNat : Int) = m := Int.toNat_of_nonneg (by omega)
  have hr : ¬ (m.toNat ≤ 0 ∨ 12 < m.toNat) := by omega
  simp only [parseStd, getnum_appendInt m (by omega) (by omega), hr, if_false, hc]

theorem parseStd_day (d : Int) (h0 : 0 ≤ d) (h1 : d < 100) (next : Option Std) (f : Fields)
    (rest : List Char) :
    parseStd .stdZeroDay next f (appendInt d 2 ++ rest) = some ({ f with day := d }, rest) := by
  have hc : (d.toNat : Int) = d := Int.toNat_of_nonneg (by omega)
  simp only [parseStd, getnum_appendInt d h0 h1, hc]

theorem parseStd_hour (h : Int) (h0 : 0 ≤ h) (h1 : h < 24) (next : Option Std) (f : Fields)
    (rest : List Char) :
    parseStd .stdHour next f (appendInt h 2 ++ rest) = some ({ f with hour := h }, rest) := by
  have hc : (h.toNat : Int) = h := Int.toNat_of_nonneg (by omega)
  have hr : ¬ (24 ≤ h.toNat) := by omega
  simp only [parseStd, getnum_appendInt h h0 (by omega), hr, if_false, hc]

theorem parseStd_minute (m : Int) (h0 : 0 ≤ m) (h1 : m < 60) (next : Option Std) (f : Fields)
    (rest : List Char) :
    parseStd .stdZeroMinute next f (appendInt m 2 ++ rest) = some ({ f with min := m }, rest) := by
  have hc : (m.toNat : Int) = m := Int.toNat_of_nonneg (by omega)
  have hr : ¬ (60 ≤ m.toNat) := by omega
  simp only [parseStd, getnum_appendInt m h0 (by omega), hr, if_false, hc]

/-- The seconds element reads back seconds written with two digits, when no
fraction follows. -/
theorem parseStd_second (s : Int) (h0 : 0 ≤ s) (h1 : s < 60) (next : Option Std) (f : Fields)
    (rest : List Char) (hrest : ∀ c, rest.head? = some c → commaOrPeriod c = false) :
    parseStd .stdZeroSecond next f (appendInt s 2 ++ rest) = some ({ f with sec := s }, rest) := by
  have hc : (s.toNat : Int) = s := Int.toNat_of_nonneg (by omega)
  have hr : ¬ (60 ≤ s.toNat) := by omega
  simp only [parseStd, getnum_appendInt s h0 (by omega), hr, if_false, hc]
  rcases rest with _ | ⟨c0, _ | ⟨c1, tl⟩⟩
  · rfl
  · rfl
  · have := hrest c0 rfl
    simp [this]

end GoTime

/-! ## The calendar: from a day number to a date and back -/

namespace GoTime

/-- The cycles that `absYear` cuts a day number into. -/
theorem absYear_cycles (d : Int) :
    ∃ a b c e r : Int, 0 ≤ b ∧ b ≤ 3 ∧ 0 ≤ c ∧ c ≤ 24 ∧ 0 ≤ e ∧ e ≤ 3 ∧ 0 ≤ r ∧
      (r < 365 ∨ (r = 365 ∧ e = 3 ∧ (c < 24 ∨ b = 3))) ∧
      d = 146097 * a + 36524 * b + 1461 * c + 365 * e + r ∧
      absYear d = (400 * a + 100 * b + 4 * c + e + 1, r) := by
  refine ⟨d / 146097, _, _, _, _, ?_, ?_, ?_, ?_, ?_, ?_, ?_, ?_, ?_, rfl⟩ <;> omega

/-- The year of a day and the day of the year give the day back. -/
theorem daysSinceEpoch_absYear (d : Int) :
    daysSinceEpoch (absYear d).1 + (absYear d).2 = d ∧ 0 ≤ (absYear d).2 ∧
      (absYear d).2 < (if isLeap (absYear d).1 then 366 else 365) := by
  obtain ⟨a, b, c, e, r, h1, h2, h3, h4, h5, h6, h7, h8, h9, h10⟩ := absYear_cycles d
  rw [h10]
  refine ⟨?_, h7, ?_⟩
  · simp only [daysSinceEpoch]
    omega
  · simp only [isLeap]
    split_ifs with h <;> simp at h <;> omega

theorem daysBefore_table :
    daysBefore 0 = 0 ∧ daysBefore 1 = 31 ∧ daysBefore 2 = 59 ∧ daysBefore 3 = 90 ∧
      daysBefore 4 = 120 ∧ daysBefore 5 = 151 ∧ daysBefore 6 = 181 ∧ daysBefore 7 = 212 ∧
      daysBefore 8 = 243 ∧ daysBefore 9 = 273 ∧ daysBefore 10 = 304 ∧ daysBefore 11 = 334 ∧
      daysBefore 12 = 365 := by
  decide

/-- The month and the day of a day of the year, without the leap day. -/
theorem month_of_day (day : Int) (h0 : 0 ≤ day) (h1 : day < 365) :
    ∃ m dd : Int,
      (if day ≥ daysBefore (day / 31 + 1) then (day / 31 + 2, day - daysBefore (day / 31 + 1) + 1)
        else (day / 31 + 1, day - daysBefore (day / 31) + 1)) = (m, dd) ∧
      1 ≤ m ∧ m ≤ 12 ∧ 1 ≤ dd ∧ dd ≤ daysBefore m - daysBefore (m - 1) ∧
      daysBefore (m - 1) + (dd - 1) = day ∧ (m ≥ 3 ↔ day ≥ 59) := by
  obtain ⟨t0, t1, t2, t3, t4, t5, t6, t7, t8, t9, t10, t11, t12⟩ := daysBefore_table
  obtain ⟨q, hq⟩ : ∃ q, day / 31 = q := ⟨_, rfl⟩
  have hq0 : 0 ≤ q := by omega
  have hq1 : q ≤ 11 := by omega
  rw [hq]
  interval_cases q <;>
    simp only [Int.reduceAdd, t0, t1, t2, t3, t4, t5, t6, t7, t8, t9, t10, t11, t12] <;>
    split_ifs <;>
    refine ⟨_, _, rfl, ?_⟩ <;>
    simp only [Int.reduceSub, t0, t1, t2, t3, t4, t5, t6, t7, t8, t9, t10, t11, t12] <;>
    omega

/-- `absMonthDay` returns a date of the year, and `Date` finds the day of the
year again. -/
theorem absMonthDay_spec (year yday : Int) (h0 : 0 ≤ yday)
    (h1 : yday < (if isLeap year then 366 else 365)) :
    1 ≤ (absMonthDay year yday).1 ∧ (absMonthDay year yday).1 ≤ 12 ∧
      1 ≤ (absMonthDay year yday).2 ∧
      (absMonthDay year yday).2 ≤ daysIn (absMonthDay year yday).1 year ∧
      daysBefore ((absMonthDay year yday).1 - 1)
        + (if isLeap year && (absMonthDay year yday).1 ≥ 3 then 1 else 0)
        + ((absMonthDay year yday).2 - 1) = yday := by
  unfold absMonthDay daysIn
  cases hl : isLeap year with
  | false =>
    simp only [hl, if_false, Bool.false_eq_true] at h1
    simp only [Bool.false_and, Bool.false_eq_true, if_false, Bool.and_false]
    obtain ⟨m, dd, he, hm1, hm2, hd1, hd2, hsum, _⟩ := month_of_day yday h0 h1
    rw [he]
    simp only
    omega
  | true =>
    simp only [hl, if_true] at h1
    by_cases h59 : yday = 31 + 29 - 1
    · subst h59
      obtain ⟨t0, t1, t2, t3, t4, t5, t6, t7, t8, t9, t10, t11, t12⟩ := daysBefore_table
      simp only [Int.reduceAdd, Int.reduceSub, Bool.true_and, decide_True, if_true, t1, t2]
      decide
    · simp only [Bool.true_and, decide_eq_true_eq, h59, if_false, Bool.and_true]
      by_cases hgt : yday > 31 + 29 - 1
      · simp only [hgt, if_true]
        obtain ⟨m, dd, he, hm1, hm2, hd1, hd2, hsum, hm3⟩ :=
          month_of_day (yday - 1) (by omega) (by omega)
        rw [he]
        simp only
        have hm : m ≥ 3 := hm3.2 (by omega)
        have hm' : ¬ m = 2 := by omega
        simp only [hm, hm', if_true, if_false]
        omega
      · simp only [hgt, if_false]
        obtain ⟨m, dd, he, hm1, hm2, hd1, hd2, hsum, hm3⟩ :=
          month_of_day yday (by omega) (by omega)
        rw [he]
        simp only
        have hm : ¬ m ≥ 3 := fun h => by have := hm3.1 h; omega
        simp only [hm, if_false]
        refine ⟨hm1, hm2, hd1, ?_, by omega⟩
        split_ifs with h2
        · have hm2' : m = 2 := by simpa using h2
          subst hm2'
          simp only [Int.reduceSub, daysBefore_table.2.1, daysBefore_table.2.2.1] at hd2
          omega
        · omega

/-- The date of a time is a date of the calendar, its clock a time of the day,
and `Date` builds the time from them again. -/
theorem Date_date_clock (t : Time) :
    1 ≤ t.date.2.1 ∧ t.date.2.1 ≤ 12 ∧ 1 ≤ t.date.2.2 ∧
      t.date.2.2 ≤ daysIn t.date.2.1 t.date.1 ∧
      0 ≤ t.clock.1 ∧ t.clock.1 < 24 ∧ 0 ≤ t.clock.2.1 ∧ t.clock.2.1 < 60 ∧
      0 ≤ t.clock.2.2 ∧ t.clock.2.2 < 60 ∧
      Date t.date.1 t.date.2.1 t.date.2.2 t.clock.1 t.clock.2.1 t.clock.2.2 t.nsec 0
        = ⟨t.sec + t.offset, t.nsec, 0⟩ := by
  obtain ⟨hy, hy0, hy1⟩ := daysSinceEpoch_absYear (t.abs / 86400)
  obtain ⟨hm1, hm2, hd1, hd2, hsum⟩ :=
    absMonthDay_spec (absYear (t.abs / 86400)).1 (absYear (t.abs / 86400)).2 hy0 hy1
  simp only [Time.date, Time.clock, Date]
  refine ⟨hm1, hm2, hd1, hd2, by omega, by omega, by omega, by omega, by omega, by omega, ?_⟩
  simp only [Time.mk.injEq, and_true]
  have : t.abs = t.sec + t.offset + unixToInternal := rfl
  omega

end GoTime

/-! ## The fraction of a second, written and read back -/

namespace GoTime

open Spec

theorem natDigits_length (k : Nat) : ∀ u : Nat, u < 10 ^ k → 0 < k → (natDigits u).length ≤ k := by
  induction k with
  | zero => intro u _ h; omega
  | succ k ih =>
    intro u hu _
    rw [natDigits_eq]
    by_cases h10 : u < 10
    · simp [h10]
    · have hk : 0 < k := by
        rcases Nat.eq_zero_or_pos k with h | h
        · subst h; simp at hu; omega
        · exact h
      have hq : u / 10 < 10 ^ k := by
        rw [pow_succ] at hu
        omega
      have := ih (u / 10) hq hk
      simp only [h10, if_false, List.length_append, List.length_singleton]
      omega

theorem digitsValue_zeros (k : Nat) (ds : List Char) :
    digitsValue (List.replicate k '0' ++ ds) = digitsValue ds := by
  induction k with
  | zero => rfl
  | succ k ih =>
    have hz : digitVal '0' = 0 := by decide
    simp only [digitsValue, List.replicate_succ, List.cons_append, List.foldl_cons, hz,
      Nat.zero_mul, Nat.add_zero] at ih ⊢
    exact ih

/-- Nine digits for a number of nanoseconds. -/
theorem appendInt_nine (ns : Int) (h0 : 0 ≤ ns) (h1 : ns < 1000000000) :
    (appendInt ns 9).length = 9 ∧ (appendInt ns 9).all isDigit = true ∧
      digitsValue (appendInt ns 9) = ns.toNat := by
  obtain ⟨n, rfl⟩ := Int.eq_ofNat_of_zero_le h0
  have hn : n < 10 ^ 9 := by norm_num; omega
  obtain ⟨d1, d2, d3⟩ := natDigits_spec n
  have hl := natDigits_length 9 n hn (by norm_num)
  simp only [appendInt, Int.natAbs_ofNat, Int.toNat_ofNat, show ¬ ((n : Int) < 0) by omega,
    if_false, List.nil_append]
  refine ⟨?_, ?_, ?_⟩
  · simp only [List.length_append, List.length_replicate]
    omega
  · simp only [List.all_append, d2, Bool.and_true, List.all_replicate]
    simp
    right
    decide
  · rw [digitsValue_zeros, d3]

/-- The digits that are left of a number without its trailing zeros (`r` is
the string of digits, last digit first). -/
theorem trim_zeros (r : List Char) (hall : ∀ c ∈ r, isDigit c = true)
    (hv : digitsValue r.reverse ≠ 0) :
    r.dropWhile (· = '0') ≠ [] ∧
      (r.dropWhile (· = '0')).length ≤ r.length ∧
      (∀ c ∈ r.dropWhile (· = '0'), isDigit c = true) ∧
      digitsValue (r.dropWhile (· = '0')).reverse
          * 10 ^ (r.length - (r.dropWhile (· = '0')).length)
        = digitsValue r.reverse := by
  induction r with
  | nil => simp [digitsValue] at hv
  | cons c r0 ih =>
    by_cases hc : c = '0'
    · subst hc
      have hz : digitVal '0' = 0 := by decide
      have hval : digitsValue ('0' :: r0).reverse = digitsValue r0.reverse * 10 := by
        rw [List.reverse_cons, digitsValue_append, hz]
        omega
      have hv0 : digitsValue r0.reverse ≠ 0 := by
        intro h
        rw [hval, h] at hv
        exact hv rfl
      obtain ⟨i1, i2, i3, i4⟩ := ih (fun c hc => hall c (by simp [hc])) hv0
      have hd : ('0' :: r0).dropWhile (· = '0') = r0.dropWhile (· = '0') := by
        simp [List.dropWhile]
      rw [hd, hval]
      refine ⟨i1, by simp only [List.length_cons]; omega, i3, ?_⟩
      rw [← i4]
      have he : ('0' :: r0).length - (r0.dropWhile (· = '0')).length
          = (r0.length - (r0.dropWhile (· = '0')).length) + 1 := by
        simp only [List.length_cons]
        omega
      rw [he, pow_succ]
      ring
    · have hd : (c :: r0).dropWhile (· = '0') = c :: r0 := by
        simp [List.dropWhile, hc]
      rw [hd]
      refine ⟨by simp, le_refl _, hall, ?_⟩
      simp

theorem dropWhile_append_stop (r tail : List Char) (h : r.dropWhile (· = '0') ≠ []) :
    (r ++ tail).dropWhile (· = '0') = r.dropWhile (· = '0') ++ tail := by
  induction r with
  | nil => simp at h
  | cons c r0 ih =>
    by_cases hc : c = '0'
    · subst hc
      have hd : ∀ l : List Char, ('0' :: l).dropWhile (· = '0') = l.dropWhile (· = '0') := by
        intro l
        simp [List.dropWhile]
      rw [List.cons_append, hd, hd]
      rw [hd] at h
      exact ih h
    · simp [List.dropWhile, hc]

/-- What `appendNano` writes for a number of nanoseconds that is not zero: a
point and at most nine digits, which are the number without its trailing
zeros. -/
theorem appendNano_spec (ns : Int) (h0 : 0 < ns) (h1 : ns < 1000000000) :
    ∃ c ds, appendNano ns = '.' :: c :: ds ∧ isDigit c = true ∧ ds.all isDigit = true ∧
      ds.length + 1 ≤ 9 ∧
      (digitsValue (c :: ds) * 10 ^ (9 - (ds.length + 1)) : Nat) = ns.toNat := by
  obtain ⟨hl, hall, hval⟩ := appendInt_nine ns (by omega) h1
  have hall' : ∀ c ∈ (appendInt ns 9).reverse, isDigit c = true := by
    intro c hc
    exact (List.all_eq_true.1 hall) c (List.mem_reverse.1 hc)
  have hv : digitsValue (appendInt ns 9).reverse.reverse ≠ 0 := by
    rw [List.reverse_reverse, hval]
    omega
  obtain ⟨t1, t2, t3, t4⟩ := trim_zeros (appendInt ns 9).reverse hall' hv
  rw [List.reverse_reverse, hval, List.length_reverse, hl] at t4
  rw [List.length_reverse, hl] at t2
  generalize hr : (appendInt ns 9).reverse.dropWhile (· = '0') = r at t1 t2 t3 t4
  have hap : appendNano ns = '.' :: r.reverse := by
    have hne : ¬ ns = 0 := by omega
    simp only [appendNano, hne, if_false, List.reverse_cons]
    rw [dropWhile_append_stop _ _ (by rw [hr]; exact t1), hr]
    cases r with
    | nil => exact absurd rfl t1
    | cons x xs =>
      have hx : x ≠ '.' := isDigit_ne x '.' (t3 x (by simp)) (by decide)
      simp [hx]
  have hrev : r.reverse ≠ [] := by simpa using t1
  cases hrr : r.reverse with
  | nil => exact absurd hrr hrev
  | cons c ds =>
    have hlen : ds.length + 1 = r.length := by
      have := congrArg List.length hrr
      simp only [List.length_reverse, List.length_cons] at this
      omega
    refine ⟨c, ds, by rw [hap, hrr], ?_, ?_, by omega, ?_⟩
    · exact t3 c (List.mem_reverse.1 (by rw [hrr]; simp))
    · apply List.all_eq_true.2
      intro x hx
      exact t3 x (List.mem_reverse.1 (by rw [hrr]; simp [hx]))
    · rw [hlen, ← hrr]
      exact t4

theorem leadingInt_digits (ds : List Char) (x : Nat) (hall : ds.all isDigit = true)
    (hb : ds.foldl (fun n c => n * 10 + digitVal c) x ≤ 922337203685477580) :
    leadingInt ds x = some (ds.foldl (fun n c => n * 10 + digitVal c) x, []) := by
  induction ds generalizing x with
  | nil => rfl
  | cons c rest ih =>
    simp only [List.all_cons, Bool.and_eq_true] at hall
    simp only [List.foldl_cons] at hb ⊢
    have hge := foldl_digits_ge rest (x * 10 + digitVal c)
    have e1 : ¬ (x > 2 ^ 63 / 10) := by norm_num; omega
    have e2 : ¬ (x * 10 + digitVal c > 2 ^ 63) := by norm_num; omega
    simp only [leadingInt, hall.1, Bool.not_true, Bool.false_eq_true, if_false, e1, e2]
    exact ih (x * 10 + digitVal c) hall.2 hb

theorem atoi_digits (c : Char) (ds : List Char) (hc : isDigit c = true)
    (hall : ds.all isDigit = true) (hb : digitsValue (c :: ds) ≤ 922337203685477580) :
    atoi (c :: ds) = some (digitsValue (c :: ds) : Int) := by
  have hm : c ≠ '-' := isDigit_ne c '-' hc (by decide)
  have hp : c ≠ '+' := isDigit_ne c '+' hc (by decide)
  have hall' : (c :: ds).all isDigit = true := by simp [hc, hall]
  have hl := leadingInt_digits (c :: ds) 0 hall' hb
  have hw : wrapInt64 (digitsValue (c :: ds) : Int) = (digitsValue (c :: ds) : Int) := by
    unfold wrapInt64
    omega
  simp only [atoi, List.head?_cons, Option.some.injEq, hm, hp, or_self, if_false, decide_False,
    hl, ne_eq, not_true_eq_false, Bool.false_eq_true]
  exact hw

theorem takeWhile_digits (ds rest : List Char) (hall : ds.all isDigit = true)
    (hrest : ∀ c, rest.head? = some c → isDigit c = false) :
    (ds ++ rest).takeWhile isDigit = ds := by
  induction ds with
  | nil =>
    cases rest with
    | nil => rfl
    | cons x xs => simp [List.takeWhile, hrest x rfl]
  | cons c tl ih =>
    simp only [List.all_cons, Bool.and_eq_true] at hall
    simp [List.takeWhile, hall.1, ih hall.2]

theorem foldl_digits_lt (ds : List Char) (x : Nat) (hall : ds.all isDigit = true) :
    ds.foldl (fun n c => n * 10 + digitVal c) x < (x + 1) * 10 ^ ds.length := by
  induction ds generalizing x with
  | nil => simp
  | cons c rest ih =>
    simp only [List.all_cons, Bool.and_eq_true] at hall
    have hv := digitVal_lt c hall.1
    have := ih (x * 10 + digitVal c) hall.2
    simp only [List.foldl_cons, List.length_cons, pow_succ]
    calc List.foldl (fun n c => n * 10 + digitVal c) (x * 10 + digitVal c) rest
        < (x * 10 + digitVal c + 1) * 10 ^ rest.length := this
      _ ≤ ((x + 1) * 10) * 10 ^ rest.length := Nat.mul_le_mul_right _ (by omega)
      _ = (x + 1) * (10 ^ rest.length * 10) := by ring

/-- `parseNanoseconds` reads back a fraction of at most nine digits. -/
theorem parseNanoseconds_digits (c : Char) (ds rest : List Char) (hc : isDigit c = true)
    (hall : ds.all isDigit = true) (hlen : ds.length + 1 ≤ 9) :
    parseNanoseconds ('.' :: c :: (ds ++ rest)) (2 + ds.length)
      = some ((digitsValue (c :: ds) * 10 ^ (9 - (ds.length + 1)) : Nat) : Int) := by
  have hall' : (c :: ds).all isDigit = true := by simp [hc, hall]
  have hlt := foldl_digits_lt (c :: ds) 0 hall'
  have hpow : 10 ^ (c :: ds).length ≤ 10 ^ 9 :=
    Nat.pow_le_pow_right (by norm_num) (by simpa using hlen)
  have hb : digitsValue (c :: ds) ≤ 922337203685477580 := by
    have : digitsValue (c :: ds) < 10 ^ 9 := by
      unfold digitsValue
      omega
    norm_num at this
    omega
  have hn : ¬ (2 + ds.length > 10) := by omega
  have htake : (List.take (2 + ds.length) ('.' :: c :: (ds ++ rest))).drop 1 = c :: ds := by
    have h2 : 2 + ds.length = (ds.length + 1) + 1 := by omega
    rw [h2, List.take_succ_cons, List.drop_one, List.tail_cons, List.take_succ_cons,
      List.take_left]
  have hcp : commaOrPeriod '.' = true := by decide
  have hexp : 10 - (2 + ds.length) = 9 - (ds.length + 1) := by omega
  have hnn : ¬ ((digitsValue (c :: ds) : Int) < 0) := by omega
  simp only [parseNanoseconds, hcp, Bool.not_true, Bool.false_eq_true, if_false, hn, htake,
    atoi_digits c ds hc hall hb, hnn, hexp]
  norm_cast

end GoTime

/-! ## Reading back what `Format` writes, stage by stage -/

namespace GoTime

theorem skip_char (c : Char) (w : List Char) (hc : c ≠ ' ') : skip (c :: w) [c] = some w := by
  simp [skip, skipAux, hc]

theorem skip_space (a : Nat) (ha : a < 10) (w : List Char) :
    skip (' ' :: digitChar a :: w) [' '] = some (digitChar a :: w) := by
  have h : digitChar a ≠ ' ' := isDigit_ne _ ' ' (isDigit_digitChar a ha) (by decide)
  simp [skip, skipAux, cutspace, List.dropWhile, h]

/-- The date elements read back a date written by them. -/
theorem date_stage (y m d : Int) (hy0 : 0 ≤ y) (hy1 : y ≤ 9999) (hm0 : 1 ≤ m) (hm1 : m ≤ 12)
    (hd0 : 0 ≤ d) (hd1 : d < 100) (f : Fields) (rest : List Char) :
    parseChunks dateChunks f
        (appendInt y 4 ++ '-' :: (appendInt m 2 ++ '-' :: (appendInt d 2 ++ rest)))
      = some ({ f with year := y, month := m, day := d }, rest) := by
  have hs : ∀ v, skip v [] = some v := fun v => rfl
  simp only [dateChunks, parseChunks, hs, parseStd_year y hy0 hy1,
    skip_char '-' _ (by decide), parseStd_month m hm0 hm1, parseStd_day d hd0 hd1]

/-- The clock elements read back a time of the day written by them. -/
theorem clock_stage (sep : Char) (hsep : sep = 'T' ∨ sep = ' ') (h mi : Int) (hh0 : 0 ≤ h)
    (hh1 : h < 24) (hm0 : 0 ≤ mi) (hm1 : mi < 60) (f : Fields) (rest : List Char) :
    parseChunks (clockChunks sep) f (sep :: (appendInt h 2 ++ ':' :: (appendInt mi 2 ++ rest)))
      = some ({ f with hour := h, min := mi }, rest) := by
  have hskip : skip (sep :: (appendInt h 2 ++ ':' :: (appendInt mi 2 ++ rest))) [sep]
      = some (appendInt h 2 ++ ':' :: (appendInt mi 2 ++ rest)) := by
    rcases hsep with hs | hs
    · subst hs
      exact skip_char 'T' _ (by decide)
    · subst hs
      rw [appendInt_two h hh0 (by omega)]
      exact skip_space _ (by omega) _
  simp only [clockChunks, parseChunks, hskip, parseStd_hour h hh0 hh1,
    skip_char ':' _ (by decide), parseStd_minute mi hm0 hm1]

/-- The seconds element reads back seconds written by it, and a fraction
after them. -/
theorem second_stage (sc ns : Int) (hs0 : 0 ≤ sc) (hs1 : sc < 60) (hn0 : 0 ≤ ns)
    (hn1 : ns < 1000000000) (f : Fields) (hf : f.nsec = 0) (rest : List Char)
    (hrest : ∀ c, rest.head? = some c → commaOrPeriod c = false ∧ isDigit c = false) :
    parseChunks secondChunks f (':' :: (appendInt sc 2 ++ (appendNano ns ++ rest)))
      = some ({ f with sec := sc, nsec := ns }, rest) := by
  simp only [secondChunks, parseChunks, skip_char ':' _ (by decide), List.head?_nil,
    Option.map_none']
  by_cases hz : ns = 0
  · subst hz
    have : appendNano 0 = [] := rfl
    rw [this, List.nil_append, parseStd_second sc hs0 hs1 none f rest
      (fun c hc => (hrest c hc).1)]
    cases f
    simp only at hf
    simp [hf]
  · obtain ⟨c, ds, hap, hc, hall, hlen, hval⟩ := appendNano_spec ns (by omega) hn1
    have hcast : (sc.toNat : Int) = sc := Int.toNat_of_nonneg hs0
    have hr : ¬ (60 ≤ sc.toNat) := by omega
    have hcp : commaOrPeriod '.' = true := by decide
    have htw : (ds ++ rest).takeWhile isDigit = ds :=
      takeWhile_digits ds rest hall (fun c hc => (hrest c hc).2)
    have hdrop : List.drop (2 + ds.length) ('.' :: c :: (ds ++ rest)) = rest := by
      have h2 : 2 + ds.length = (ds.length + 1) + 1 := by omega
      rw [h2, List.drop_succ_cons, List.drop_succ_cons, List.drop_left]
    have hnv : ((Spec.digitsValue (c :: ds) * 10 ^ (9 - (ds.length + 1)) : Nat) : Int) = ns := by
      rw [hval]
      exact Int.toNat_of_nonneg hn0
    rw [hap]
    simp only [parseStd, getnum_appendInt sc hs0 (by omega), hr, if_false, hcast,
      List.cons_append, hcp, hc, Bool.and_self, if_true, htw,
      parseNanoseconds_digits c ds rest hc hall hlen, hdrop, hnv]
    simp

/-- The zone element reads back `Z`. -/
theorem zone_stage_utc (f : Fields) :
    parseChunks zoneChunks f ['Z'] = some ({ f with z := true }, []) := rfl

/-- The zone element reads back a zone offset of whole minutes written by it. -/
theorem zone_stage (t : Time) (f : Fields) (h0 : t.offset % 60 = 0) (h1 : -90000 < t.offset)
    (h2 : t.offset < 90000) :
    parseChunks zoneChunks f (formatStd t .stdISO8601ColonTZ)
      = some (if t.offset = 0 then { f with z := true }
          else { f with zoneOffset := t.offset }, []) := by
  by_cases hz : t.offset = 0
  · simp only [formatStd, hz, if_true]
    rfl
  · simp only [formatStd, hz, if_false]
    generalize hzone : (if t.offset < 0 then -(-t.offset / 60) else t.offset / 60 : Int) = zone
    have hzb : -1500 < zone ∧ zone < 1500 ∧ zone * 60 = t.offset := by
      rw [← hzone]
      split_ifs <;> omega
    obtain ⟨n, hn⟩ : ∃ n : Nat, zone.natAbs = n := ⟨_, rfl⟩
    have hnb : n < 1500 := by omega
    have ha : ((n / 60 : Nat) : Int) < 100 := by omega
    have hb : ((n % 60 : Nat) : Int) < 100 := by omega
    rw [hn, appendInt_two _ (by omega) ha, appendInt_two _ (by omega) hb]
    simp only [Int.toNat_ofNat]
    have g1 := getnum_two (n / 60 / 10) (n / 60 % 10) (by omega) (by omega) [] true
    have g2 := getnum_two (n % 60 / 10) (n % 60 % 10) (by omega) (by omega) [] true
    have hr1 : ¬ (n / 60 / 10 * 10 + n / 60 % 10 > 24) := by omega
    have hr2 : ¬ (n % 60 / 10 * 10 + n % 60 % 10 > 60) := by omega
    have hs : ∀ v, skip v [] = some v := fun v => rfl
    by_cases hneg : zone < 0
    · have hval : -((((n / 60 / 10 * 10 + n / 60 % 10 : Nat) : Int) * 60
          + ((n % 60 / 10 * 10 + n % 60 % 10 : Nat) : Int)) * 60) = t.offset := by omega
      simp only [hneg, if_true, zoneChunks, parseChunks, hs, parseStd, List.cons_append,
        List.nil_append, List.head?_cons, Option.some.injEq, show ('-' : Char) ≠ 'Z' by decide,
        if_false, List.length_cons, List.length_nil, show ¬ (0 + 1 + 1 + 1 + 1 + 1 + 1 < 6) by omega,
        List.get?_cons_succ, List.get?_cons_zero, ne_eq, not_true_eq_false, List.take, List.drop,
        g1, g2, hr1, hr2, show ('-' : Char) ≠ '+' by decide, if_true, hval]
    · have hval : ((((n / 60 / 10 * 10 + n / 60 % 10 : Nat) : Int) * 60
          + ((n % 60 / 10 * 10 + n % 60 % 10 : Nat) : Int)) * 60) = t.offset := by omega
      simp only [hneg, if_false, zoneChunks, parseChunks, hs, parseStd, List.cons_append,
        List.nil_append, List.head?_cons, Option.some.injEq, show ('+' : Char) ≠ 'Z' by decide,
        List.length_cons, List.length_nil, show ¬ (0 + 1 + 1 + 1 + 1 + 1 + 1 < 6) by omega,
        List.get?_cons_succ, List.get?_cons_zero, ne_eq, not_true_eq_false, List.take, List.drop,
        g1, g2, hr1, hr2, if_true, hval]

/-- The head of what the zone element writes is no digit, point or comma. -/
theorem zone_head (t : Time) (c : Char)
    (h : (formatStd t .stdISO8601ColonTZ).head? = some c) :
    commaOrPeriod c = false ∧ isDigit c = false := by
  simp only [formatStd] at h
  split_ifs at h <;> simp only [List.cons_append, List.nil_append, List.head?_cons,
    Option.some.injEq] at h <;> subst h <;> decide

theorem daysIn_le (m year : Int) (h0 : 1 ≤ m) (h1 : m ≤ 12) : daysIn m year ≤ 31 := by
  obtain ⟨t0, t1, t2, t3, t4, t5, t6, t7, t8, t9, t10, t11, t12⟩ := daysBefore_table
  unfold daysIn
  split_ifs
  · omega
  · interval_cases m <;>
      simp only [Int.reduceSub, t0, t1, t2, t3, t4, t5, t6, t7, t8, t9, t10, t11, t12] <;> omega

/-- The end of `parse` builds the time again from its date and its clock. -/
theorem build_of_fields (t : Time) (loc : Location) (z : Bool) (zo : Int)
    (hz : (z = true ∧ t.offset = 0) ∨ (z = false ∧ zo = -1 ∧ t.offset = 0) ∨
      (z = false ∧ zo = t.offset ∧ t.offset % 60 = 0)) :
    parse.build ⟨t.date.1, t.date.2.1, t.date.2.2, t.clock.1, t.clock.2.1, t.clock.2.2, t.nsec,
        z, zo⟩ 0 loc = some t := by
  obtain ⟨hm1, hm2, hd1, hd2, _, _, _, _, _, _, hD⟩ := Date_date_clock t
  have e1 : ¬ (t.date.2.1 < 0) := by omega
  have e2 : ¬ (t.date.2.2 < 0) := by omega
  have e3 : ¬ (t.date.2.2 < 1 ∨ t.date.2.2 > daysIn t.date.2.1 t.date.1) := by omega
  simp only [parse.build, e1, e2, e3, if_false, hD]
  rcases hz with ⟨h1, h2⟩ | ⟨h1, h2, h3⟩ | ⟨h1, h2, h3⟩
  · subst h1
    cases t
    simp only at h2
    simp [h2]
  · subst h1; subst h2
    cases t
    simp only at h3
    simp [h3]
  · subst h1; subst h2
    have hne : t.offset ≠ -1 := by omega
    cases t
    simp only [Bool.false_eq_true, if_false, ne_eq, hne, not_false_eq_true, if_true,
      add_sub_cancel_right]
    split_ifs with h
    · rw [h]
    · rfl

end GoTime

/-! ## `time.Parse`: the elements one after the other -/

namespace GoTime

theorem parseStd_next (std : Std) (next : Option Std) (f : Fields) (v : List Char)
    (h : std ≠ .stdZeroSecond) : parseStd std next f v = parseStd std none f v := by
  cases std <;> first | rfl | exact absurd rfl h

theorem parseStd_second_next (next : Option Std) (f : Fields) (v : List Char)
    (h : next ≠ some .stdFracSecond9) :
    parseStd .stdZeroSecond next f v = parseStd .stdZeroSecond none f v := by
  simp only [parseStd, h, if_false]
  rfl

theorem parseChunks_append (a b : List (List Char × Std)) (f : Fields) (v : List Char)
    (h : ∀ c ∈ a, c.2 ≠ .stdZeroSecond) :
    parseChunks (a ++ b) f v =
      (parseChunks a f v).bind (fun r => parseChunks b r.1 r.2) := by
  induction a generalizing f v with
  | nil => simp [parseChunks]
  | cons c rest ih =>
    obtain ⟨pre, std⟩ := c
    have hstd : std ≠ .stdZeroSecond := h (pre, std) (by simp)
    have hrest : ∀ c ∈ rest, c.2 ≠ .stdZeroSecond := fun c hc => h c (by simp [hc])
    simp only [List.cons_append, parseChunks]
    cases skip v pre with
    | none => rfl
    | some v1 =>
      simp only
      rw [parseStd_next std _ f v1 hstd, parseStd_next std (rest.head?.map (·.2)) f v1 hstd]
      cases parseStd std none f v1 with
      | none => rfl
      | some r =>
        obtain ⟨f2, v2⟩ := r
        exact ih f2 v2 hrest

theorem parseStd_second_frac (next : Option Std) (f : Fields) (v : List Char) :
    (parseStd .stdZeroSecond (some .stdFracSecond9) f v).bind
        (fun r => parseStd .stdFracSecond9 next r.1 r.2)
      = parseStd .stdZeroSecond none f v := by
  simp only [parseStd]
  cases getnum v true with
  | none => rfl
  | some r =>
    obtain ⟨sec, value⟩ := r
    simp only
    by_cases hs : 60 ≤ sec
    · simp [hs]
    simp only [hs, if_false]
    rcases value with _ | ⟨c0, _ | ⟨c1, tl⟩⟩
    · rfl
    · rfl
    · by_cases hc : (commaOrPeriod c0 && isDigit c1) = true
      · have hc' : (!commaOrPeriod c0 || !isDigit c1) = false := by
          simp only [Bool.and_eq_true] at hc
          simp [hc.1, hc.2]
        simp only [hc, if_true, Option.some_bind, hc', Bool.false_eq_true, if_false,
          reduceCtorEq]
        have hn : 1 + (1 + (List.takeWhile isDigit tl).length)
            = 2 + (List.takeWhile isDigit tl).length := by omega
        rw [hn]
      · have hc' : (!commaOrPeriod c0 || !isDigit c1) = true := by
          simp only [Bool.and_eq_true, not_and, Bool.not_eq_true] at hc
          cases h0 : commaOrPeriod c0
          · simp
          · simp [hc h0]
        simp only [hc, Bool.false_eq_true, if_false, Option.some_bind, hc', if_true]

/-- The elements `:05.999999999` read what the element `:05` alone reads. -/
theorem parseChunks_second_frac (b : List (List Char × Std)) (f : Fields) (v : List Char) :
    parseChunks (([':'], .stdZeroSecond) :: ([], .stdFracSecond9) :: b) f v =
      (parseChunks secondChunks f v).bind (fun r => parseChunks b r.1 r.2) := by
  simp only [parseChunks, secondChunks, List.head?_cons, Option.map_some', List.head?_nil,
    Option.map_none']
  cases skip v [':'] with
  | none => rfl
  | some v1 =>
    simp only [skip, skipAux]
    rw [← parseStd_second_frac (b.head?.map (·.2)) f v1]
    cases parseStd .stdZeroSecond (some .stdFracSecond9) f v1 with
    | none => rfl
    | some r =>
      simp only [Option.some_bind]
      cases parseStd .stdFracSecond9 (b.head?.map (·.2)) r.1 r.2 <;> rfl

theorem parseChunks_second_zone (f : Fields) (v : List Char) :
    parseChunks (([':'], .stdZeroSecond) :: zoneChunks) f v =
      (parseChunks secondChunks f v).bind (fun r => parseChunks zoneChunks r.1 r.2) := by
  simp only [parseChunks, secondChunks, zoneChunks, List.head?_cons, Option.map_some',
    List.head?_nil, Option.map_none']
  cases skip v [':'] with
  | none => rfl
  | some v1 =>
    simp only
    rw [parseStd_second_next (some .stdISO8601ColonTZ) f v1 (by decide)]
    cases parseStd .stdZeroSecond none f v1 with
    | none => rfl
    | some r => rfl

theorem parse_eq (layout : Layout) (value : List Char) (defaultOffset : Int) (loc : Location)
    (h : layout.rest = []) :
    parse layout value defaultOffset loc =
      (parseChunks layout.chunks {} value).bind (parse.finish defaultOffset loc) := by
  unfold parse
  cases parseChunks layout.chunks {} value with
  | none => rfl
  | some r =>
    obtain ⟨f, v⟩ := r
    simp only [h, skip, skipAux, Option.some_bind, parse.finish]

theorem dateChunks_no_second : ∀ c ∈ dateChunks, c.2 ≠ Std.stdZeroSecond := by decide

theorem clockChunks_no_second (sep : Char) : ∀ c ∈ clockChunks sep, c.2 ≠ Std.stdZeroSecond := by
  intro c hc
  simp only [clockChunks, List.mem_cons, List.mem_singleton, List.not_mem_nil, or_false] at hc
  rcases hc with h | h <;> subst h <;> simp

end GoTime

namespace Import

open GoTime

/-- The date layout: the date elements, then nothing. -/
theorem Parse_layoutDate (loc : Location) (s : List Char) :
    Parse loc layoutDate s = (parseChunks dateChunks {} s).bind (parse.finish 0 loc) :=
  parse_eq layoutDate s 0 loc rfl

/-- The two minute layouts: the date elements, then the clock elements. -/
theorem Parse_minutes (loc : Location) (s : List Char) (sep : Char) (L : Layout)
    (hc : L.chunks = dateChunks ++ clockChunks sep) (hr : L.rest = []) :
    Parse loc L s =
      (parseChunks dateChunks {} s).bind (fun r1 =>
        (parseChunks (clockChunks sep) r1.1 r1.2).bind (parse.finish 0 loc)) := by
  unfold Parse
  rw [parse_eq L s 0 loc hr, hc, parseChunks_append _ _ _ _ dateChunks_no_second]
  cases parseChunks dateChunks {} s <;> rfl

/-- The two seconds layouts: the date, the clock and the seconds elements. -/
theorem Parse_seconds (loc : Location) (s : List Char) (sep : Char) (L : Layout)
    (hc : L.chunks = dateChunks ++ (clockChunks sep ++ secondChunks)) (hr : L.rest = []) :
    Parse loc L s =
      (parseChunks dateChunks {} s).bind (fun r1 =>
        (parseChunks (clockChunks sep) r1.1 r1.2).bind (fun r2 =>
          (parseChunks secondChunks r2.1 r2.2).bind (parse.finish 0 loc))) := by
  unfold Parse
  rw [parse_eq L s 0 loc hr, hc, parseChunks_append _ _ _ _ dateChunks_no_second]
  cases parseChunks dateChunks {} s with
  | none => rfl
  | some r1 =>
    simp only [Option.some_bind]
    rw [parseChunks_append _ _ _ _ (clockChunks_no_second sep)]
    cases parseChunks (clockChunks sep) r1.1 r1.2 <;> rfl

/-- The layout `RFC3339`: the date, the clock, the seconds and the zone. -/
theorem Parse_RFC3339 (loc : Location) (s : List Char) :
    Parse loc RFC3339 s =
      (parseChunks dateChunks {} s).bind (fun r1 =>
        (parseChunks (clockChunks 'T') r1.1 r1.2).bind (fun r2 =>
          (parseChunks secondChunks r2.1 r2.2).bind (fun r3 =>
            (parseChunks zoneChunks r3.1 r3.2).bind (parse.finish 0 loc)))) := by
  unfold Parse
  rw [parse_eq RFC3339 s 0 loc rfl,
    show RFC3339.chunks
      = dateChunks ++ (clockChunks 'T' ++ (([':'], .stdZeroSecond) :: zoneChunks)) from rfl,
    parseChunks_append _ _ _ _ dateChunks_no_second]
  cases parseChunks dateChunks {} s with
  | none => rfl
  | some r1 =>
    simp only [Option.some_bind]
    rw [parseChunks_append _ _ _ _ (clockChunks_no_second 'T')]
    cases parseChunks (clockChunks 'T') r1.1 r1.2 with
    | none => rfl
    | some r2 =>
      simp only [Option.some_bind]
      rw [parseChunks_second_zone]
      cases parseChunks secondChunks r2.1 r2.2 <;> rfl

/-- The layout `RFC3339Nano` accepts what `RFC3339` accepts, with the same result. -/
theorem Parse_RFC3339Nano (loc : Location) (s : List Char) :
    Parse loc RFC3339Nano s = Parse loc RFC3339 s := by
  rw [Parse_RFC3339]
  unfold Parse
  rw [parse_eq RFC3339Nano s 0 loc rfl,
    show RFC3339Nano.chunks
      = dateChunks ++ (clockChunks 'T' ++
          (([':'], .stdZeroSecond) :: ([], .stdFracSecond9) :: zoneChunks)) from rfl,
    parseChunks_append _ _ _ _ dateChunks_no_second]
  cases parseChunks dateChunks {} s with
  | none => rfl
  | some r1 =>
    simp only [Option.some_bind]
    rw [parseChunks_append _ _ _ _ (clockChunks_no_second 'T')]
    cases parseChunks (clockChunks 'T') r1.1 r1.2 with
    | none => rfl
    | some r2 =>
      simp only [Option.some_bind]
      rw [parseChunks_second_frac]
      cases parseChunks secondChunks r2.1 r2.2 <;> rfl

end Import

/-! ## `parseTimestamp`: the order of the layouts -/

namespace Import

open GoTime

/-- The loop over the layouts returns the result of the first layout that
accepts, and the error when none accepts. -/
theorem loop_first (loc : Location) (s : List Char) (fs : List Layout) :
    (∃ pre L post t, fs = pre ++ L :: post ∧ (∀ L' ∈ pre, Parse loc L' s = none) ∧
        Parse loc L s = some t ∧ parseTimestamp.loop loc s fs = .ok t) ∨
      ((∀ L ∈ fs, Parse loc L s = none) ∧
        parseTimestamp.loop loc s fs = .error "unrecognized format") := by
  induction fs with
  | nil => right; simp [parseTimestamp.loop]
  | cons L rest ih =>
    cases hL : Parse loc L s with
    | some t =>
      left
      exact ⟨[], L, rest, t, rfl, by simp, hL, by simp [parseTimestamp.loop, hL]⟩
    | none =>
      rcases ih with ⟨pre, L', post, t, h1, h2, h3, h4⟩ | ⟨h1, h2⟩
      · left
        refine ⟨L :: pre, L', post, t, by simp [h1], ?_, h3, by simp [parseTimestamp.loop, hL, h4]⟩
        intro L'' hmem
        rcases List.mem_cons.1 hmem with h | h
        · rw [h]; exact hL
        · exact h2 L'' h
      · right
        refine ⟨?_, by simp [parseTimestamp.loop, hL, h2]⟩
        intro L'' hmem
        rcases List.mem_cons.1 hmem with h | h
        · rw [h]; exact hL
        · exact h1 L'' h

theorem getnum_not_digit (c : Char) (rest : List Char) (fixed : Bool)
    (h : isDigit c = false) : getnum (c :: rest) fixed = none := by
  cases rest <;> simp [getnum, h]

/-- No layout of `formats` accepts a string whose first character is no digit. -/
theorem Parse_not_digit (loc : Location) (c : Char) (rest : List Char)
    (h : isDigit c = false) (L : Layout) (hL : L ∈ formats) : Parse loc L (c :: rest) = none := by
  have hy : ∀ next f, parseStd .stdLongYear next f (c :: rest) = none := by
    intro next f
    simp [parseStd, h]
  have hd : ∀ next f, parseStd .stdZeroDay next f (c :: rest) = none := by
    intro next f
    simp [parseStd, getnum_not_digit c rest true h]
  simp only [formats, List.mem_cons, List.mem_singleton, List.not_mem_nil, or_false] at hL
  rcases hL with h | h | h | h | h | h | h | h <;> subst h <;>
    simp [Parse, parse, layoutDayFirst, RFC3339, RFC3339Nano, layoutSecondsT, layoutSeconds,
      layoutMinutesT, layoutMinutes, layoutDate, parseChunks, skip, skipAux, hy, hd]

/-- No layout of `formats` accepts the empty string. -/
theorem Parse_nil (loc : Location) (L : Layout) (hL : L ∈ formats) : Parse loc L [] = none := by
  simp only [formats, List.mem_cons, List.mem_singleton, List.not_mem_nil, or_false] at hL
  rcases hL with h | h | h | h | h | h | h | h <;> subst h <;> rfl

/-- Claim C2. For every string `s`, `parseTimestamp` goes through the eight
layouts in their order and returns what the first layout that accepts `s`
returns; it returns the error `unrecognized format` exactly when no layout
accepts `s`.  The empty string and every line that starts with `#` (as every
string that no layout accepts) fail with that error. -/
theorem parseTimestamp_first (loc : Location) (s : List Char) :
    ((∃ pre L post t, formats = pre ++ L :: post ∧ (∀ L' ∈ pre, Parse loc L' s = none) ∧
        Parse loc L s = some t ∧ parseTimestamp loc s = .ok t) ∨
      ((∀ L ∈ formats, Parse loc L s = none) ∧
        parseTimestamp loc s = .error "unrecognized format")) ∧
    (parseTimestamp loc s = .error "unrecognized format" ↔
      ∀ L ∈ formats, Parse loc L s = none) ∧
    formats.map (·.text) =
      ["02/01/2006,15:04", "2006-01-02T15:04:05Z07:00", "2006-01-02T15:04:05.999999999Z07:00",
        "2006-01-02T15:04:05", "2006-01-02 15:04:05", "2006-01-02T15:04", "2006-01-02 15:04",
        "2006-01-02"] ∧
    parseTimestamp loc [] = .error "unrecognized format" ∧
    (∀ rest, parseTimestamp loc ('#' :: rest) = .error "unrecognized format") ∧
    parseTimestamp loc "next tuesday".toList = .error "unrecognized format" := by
  have hfirst := loop_first loc s formats
  have herr : ∀ x : List Char, (∀ L ∈ formats, Parse loc L x = none) →
      parseTimestamp loc x = .error "unrecognized format" := by
    intro x hx
    rcases loop_first loc x formats with ⟨pre, L, post, t, h1, _, h3, _⟩ | ⟨_, h2⟩
    · have hmem : L ∈ formats := by rw [h1]; simp
      rw [hx L hmem] at h3
      cases h3
    · exact h2
  refine ⟨hfirst, ⟨?_, herr s⟩, rfl, ?_, ?_, ?_⟩
  · intro he
    rcases hfirst with ⟨pre, L, post, t, _, _, _, h4⟩ | ⟨h1, _⟩
    · rw [show parseTimestamp loc s = parseTimestamp.loop loc s formats from rfl] at he
      rw [he] at h4
      cases h4
    · exact h1
  · exact herr [] (Parse_nil loc)
  · intro rest
    exact herr _ (Parse_not_digit loc '#' rest (by decide))
  · exact herr _ (Parse_not_digit loc 'n' _ (by decide))

end Import

/-! ## The layouts of `parseTimestamp` do not contradict each other -/

namespace GoTime

theorem clock_nil (sep : Char) (f : Fields) : parseChunks (clockChunks sep) f [] = none := by
  by_cases h : sep = ' '
  · subst h
    rfl
  · simp [parseChunks, clockChunks, skip, skipAux, h]

theorem second_nil (f : Fields) : parseChunks secondChunks f [] = none := rfl

theorem zone_nil (f : Fields) : parseChunks zoneChunks f [] = none := rfl

theorem clock_T_space (f f' : Fields) (v : List Char) (r : Fields × List Char)
    (h : parseChunks (clockChunks 'T') f v = some r) :
    parseChunks (clockChunks ' ') f' v = none := by
  cases v with
  | nil => rw [clock_nil] at h; cases h
  | cons x xs =>
    by_cases hx : x = 'T'
    · subst hx
      simp [parseChunks, clockChunks, skip, skipAux]
    · simp [parseChunks, clockChunks, skip, skipAux, hx] at h

theorem finish_some (defaultOffset : Int) (loc : Location) (r : Fields × List Char) (t : Time)
    (h : parse.finish defaultOffset loc r = some t) :
    r.2 = [] ∧ parse.build r.1 defaultOffset loc = some t := by
  unfold parse.finish at h
  by_cases hv : r.2 = []
  · simpa [hv] using h
  · simp [hv] at h

/-- A string that starts with two digits and a stroke has no year in front. -/
theorem longYear_stroke (next : Option Std) (f : Fields) (c0 c1 : Char) (rest : List Char)
    (h0 : isDigit c0 = true) (h1 : isDigit c1 = true) :
    parseStd .stdLongYear next f (c0 :: c1 :: '/' :: rest) = none := by
  have hm : c0 ≠ '-' := isDigit_ne c0 '-' h0 (by decide)
  have hp : c0 ≠ '+' := isDigit_ne c0 '+' h0 (by decide)
  have hv0 := digitVal_lt c0 h0
  have hv1 := digitVal_lt c1 h1
  cases rest with
  | nil => simp [parseStd]
  | cons x xs =>
    have hs : isDigit '/' = false := by decide
    have hlt : ¬ (922337203685477580 < digitVal c0) := by omega
    have hlt2 : ¬ (9223372036854775808 < digitVal c0) := by omega
    have hlt3 : ¬ (9223372036854775808 < digitVal c0 * 10 + digitVal c1) := by omega
    simp [parseStd, h0, atoi, hm, hp, leadingInt, h1, hs, hlt, hlt2, hlt3]

end GoTime

namespace Import

open GoTime

/-- What the day-first layout accepts has no date of the other layouts in front. -/
theorem dayFirst_no_date (loc : Location) (s : List Char) (t : Time)
    (h : Parse loc layoutDayFirst s = some t) : parseChunks dateChunks {} s = none := by
  rcases s with _ | ⟨c0, _ | ⟨c1, _ | ⟨x, rest⟩⟩⟩
  · cases h
  · simp [Parse, parse, layoutDayFirst, parseChunks, skip, skipAux, parseStd, getnum] at h
  · by_cases h0 : isDigit c0 = true <;> by_cases h1 : isDigit c1 = true <;>
      simp [Parse, parse, layoutDayFirst, parseChunks, skip, skipAux, parseStd, getnum, h0,
        h1] at h
  · by_cases h0 : isDigit c0 = true
    swap
    · simp [Parse, parse, layoutDayFirst, parseChunks, skip, skipAux, parseStd, getnum, h0] at h
    by_cases h1 : isDigit c1 = true
    swap
    · simp [Parse, parse, layoutDayFirst, parseChunks, skip, skipAux, parseStd, getnum, h0,
        h1] at h
    by_cases hx : x = '/'
    swap
    · simp [Parse, parse, layoutDayFirst, parseChunks, skip, skipAux, parseStd, getnum, h0,
        h1, hx] at h
    subst hx
    simp only [dateChunks, parseChunks, skip, skipAux, longYear_stroke _ _ c0 c1 rest h0 h1]

/-- A date with nothing after it. -/
theorem dateFirst_date (loc : Location) (s : List Char) (t : Time)
    (h : (parseChunks dateChunks {} s).bind (parse.finish 0 loc) = some t) :
    parseDateFirst loc s = some t := by
  unfold parseDateFirst
  cases hD : parseChunks dateChunks {} s with
  | none => rw [hD] at h; cases h
  | some r1 =>
    rw [hD] at h
    obtain ⟨f1, v1⟩ := r1
    obtain ⟨hv, hb⟩ := finish_some 0 loc _ t h
    simp only at hv hb
    subst hv
    exact hb

theorem afterClock_some (loc : Location) (zoned : Bool) (r2 : Fields × List Char) (t : Time)
    (h : parse.finish 0 loc r2 = some t ∨
      (parseChunks secondChunks r2.1 r2.2).bind (parse.finish 0 loc) = some t ∨
      (zoned = true ∧ (parseChunks secondChunks r2.1 r2.2).bind (fun r3 =>
        (parseChunks zoneChunks r3.1 r3.2).bind (parse.finish 0 loc)) = some t)) :
    (if r2.2 = [] then parse.build r2.1 0 loc
      else
        match parseChunks secondChunks r2.1 r2.2 with
        | none => none
        | some r3 =>
          if r3.2 = [] then parse.build r3.1 0 loc
          else if zoned = true then (parseChunks zoneChunks r3.1 r3.2).bind (parse.finish 0 loc)
          else none) = some t := by
  rcases h with h | h | ⟨hz, h⟩
  · obtain ⟨hv, hb⟩ := finish_some 0 loc _ t h
    rw [if_pos hv]
    exact hb
  · have hv : r2.2 ≠ [] := by
      intro hv
      rw [hv, second_nil] at h
      cases h
    rw [if_neg hv]
    cases h3 : parseChunks secondChunks r2.1 r2.2 with
    | none => rw [h3] at h; cases h
    | some r3 =>
      rw [h3] at h
      obtain ⟨hv3, hb⟩ := finish_some 0 loc _ t h
      simp only [hv3, if_true]
      exact hb
  · have hv : r2.2 ≠ [] := by
      intro hv
      rw [hv, second_nil] at h
      cases h
    rw [if_neg hv]
    cases h3 : parseChunks secondChunks r2.1 r2.2 with
    | none => rw [h3] at h; cases h
    | some r3 =>
      rw [h3] at h
      simp only [Option.some_bind] at h
      have hv3 : r3.2 ≠ [] := by
        intro hv3
        rw [hv3, zone_nil] at h
        cases h
      simp only [hv3, if_false, hz, if_true]
      exact h

/-- A date with a clock after it: the minutes, the seconds, or the seconds and
a zone (the latter only after `T`). -/
theorem dateFirst_clock (loc : Location) (s : List Char) (t : Time) (sep : Char)
    (f1 : Fields) (v1 : List Char) (r2 : Fields × List Char)
    (hsep : sep = 'T' ∨ sep = ' ')
    (hD : parseChunks dateChunks {} s = some (f1, v1))
    (hC : parseChunks (clockChunks sep) f1 v1 = some r2)
    (h : parse.finish 0 loc r2 = some t ∨
      (parseChunks secondChunks r2.1 r2.2).bind (parse.finish 0 loc) = some t ∨
      (decide (sep = 'T') = true ∧ (parseChunks secondChunks r2.1 r2.2).bind (fun r3 =>
        (parseChunks zoneChunks r3.1 r3.2).bind (parse.finish 0 loc)) = some t)) :
    parseDateFirst loc s = some t := by
  cases v1 with
  | nil => rw [clock_nil] at hC; cases hC
  | cons x xs =>
    unfold parseDateFirst
    rw [hD]
    simp only
    rcases hsep with hs | hs
    · subst hs
      rw [hC]
      exact afterClock_some loc true r2 t (by simpa using h)
    · subst hs
      have hT : parseChunks (clockChunks 'T') f1 (x :: xs) = none := by
        cases hT : parseChunks (clockChunks 'T') f1 (x :: xs) with
        | none => rfl
        | some r =>
          rw [clock_T_space f1 f1 _ r hT] at hC
          cases hC
      rw [hT, hC]
      exact afterClock_some loc false r2 t (by simpa using h)

/-- Whatever a layout other than the day-first one returns, the decision over
the date-first layouts returns. -/
theorem dateFirst_of_Parse (loc : Location) (s : List Char) (t : Time) (L : Layout)
    (hL : L ∈ formats) (hne : L ≠ layoutDayFirst) (h : Parse loc L s = some t) :
    parseDateFirst loc s = some t := by
  -- the stages of a layout with a clock
  have stage : ∀ sep : Char, sep = 'T' ∨ sep = ' ' →
      ∀ g : Fields × List Char → Option Time,
      (parseChunks dateChunks {} s).bind (fun r1 =>
          (parseChunks (clockChunks sep) r1.1 r1.2).bind g) = some t →
      (∀ r2, g r2 = some t →
        (parse.finish 0 loc r2 = some t ∨
        (parseChunks secondChunks r2.1 r2.2).bind (parse.finish 0 loc) = some t ∨
        (decide (sep = 'T') = true ∧ (parseChunks secondChunks r2.1 r2.2).bind (fun r3 =>
          (parseChunks zoneChunks r3.1 r3.2).bind (parse.finish 0 loc)) = some t))) →
      parseDateFirst loc s = some t := by
    intro sep hsep g hg hcase
    cases hD : parseChunks dateChunks {} s with
    | none => rw [hD] at hg; cases hg
    | some r1 =>
      rw [hD] at hg
      simp only [Option.some_bind] at hg
      cases hC : parseChunks (clockChunks sep) r1.1 r1.2 with
      | none => rw [hC] at hg; cases hg
      | some r2 =>
        rw [hC] at hg
        exact dateFirst_clock loc s t sep r1.1 r1.2 r2 hsep hD hC (hcase r2 hg)
  simp only [formats, List.mem_cons, List.mem_singleton, List.not_mem_nil, or_false] at hL
  rcases hL with hL | hL | hL | hL | hL | hL | hL | hL
  · exact absurd hL hne
  · subst hL
    rw [Parse_RFC3339] at h
    exact stage 'T' (Or.inl rfl) _ h (fun r2 hr => Or.inr (Or.inr ⟨by decide, hr⟩))
  · subst hL
    rw [Parse_RFC3339Nano, Parse_RFC3339] at h
    exact stage 'T' (Or.inl rfl) _ h (fun r2 hr => Or.inr (Or.inr ⟨by decide, hr⟩))
  · subst hL
    rw [Parse_seconds loc s 'T' layoutSecondsT rfl rfl] at h
    exact stage 'T' (Or.inl rfl) _ h (fun r2 hr => Or.inr (Or.inl hr))
  · subst hL
    rw [Parse_seconds loc s ' ' layoutSeconds rfl rfl] at h
    exact stage ' ' (Or.inr rfl) _ h (fun r2 hr => Or.inr (Or.inl hr))
  · subst hL
    rw [Parse_minutes loc s 'T' layoutMinutesT rfl rfl] at h
    exact stage 'T' (Or.inl rfl) _ h (fun r2 hr => Or.inl hr)
  · subst hL
    rw [Parse_minutes loc s ' ' layoutMinutes rfl rfl] at h
    exact stage ' ' (Or.inr rfl) _ h (fun r2 hr => Or.inl hr)
  · subst hL
    rw [Parse_layoutDate] at h
    exact dateFirst_date loc s t h

/-- Two layouts of `formats` that accept a string return the same time. -/
theorem Parse_agree (loc : Location) (s : List Char) (L L' : Layout) (t t' : Time)
    (hL : L ∈ formats) (hL' : L' ∈ formats)
    (h : Parse loc L s = some t) (h' : Parse loc L' s = some t') : t = t' := by
  have none_of_dayFirst : ∀ (L0 : Layout) (t0 t1 : Time), L0 ∈ formats → L0 ≠ layoutDayFirst →
      Parse loc layoutDayFirst s = some t0 → Parse loc L0 s = some t1 → False := by
    intro L0 t0 t1 hm hne h0 h1
    have hd := dateFirst_of_Parse loc s t1 L0 hm hne h1
    have hD := dayFirst_no_date loc s t0 h0
    simp [parseDateFirst, hD] at hd
  by_cases h1 : L = layoutDayFirst <;> by_cases h2 : L' = layoutDayFirst
  · subst h1; subst h2
    rw [h] at h'
    exact Option.some.inj h'
  · subst h1
    exact (none_of_dayFirst L' t t' hL' h2 h h').elim
  · subst h2
    exact (none_of_dayFirst L t' t hL h1 h' h).elim
  · have a := dateFirst_of_Parse loc s t L hL h1 h
    have b := dateFirst_of_Parse loc s t' L' hL' h2 h'
    rw [a] at b
    exact Option.some.inj b

/-- What any layout of `formats` returns for a string, `parseTimestamp` returns. -/
theorem parseTimestamp_of_Parse (loc : Location) (s : List Char) (L : Layout) (t : Time)
    (hL : L ∈ formats) (h : Parse loc L s = some t) : parseTimestamp loc s = .ok t := by
  rcases loop_first loc s formats with ⟨pre, L0, post, t0, h1, _, h3, h4⟩ | ⟨h1, _⟩
  · have hm : L0 ∈ formats := by rw [h1]; simp
    have := Parse_agree loc s L0 L t0 t hm hL h3 h
    rw [← this]
    exact h4
  · rw [h1 L hL] at h
    cases h

end Import

/-! ## Layouts without a zone are read in UTC -/

namespace GoTime

theorem parseStd_zone (std : Std) (next : Option Std) (f f' : Fields) (v v' : List Char)
    (hstd : std ≠ .stdISO8601ColonTZ) (h : parseStd std next f v = some (f', v')) :
    f'.z = f.z ∧ f'.zoneOffset = f.zoneOffset := by
  cases std <;> simp only [parseStd] at h
  all_goals first
    | exact absurd rfl hstd
    | (repeat' split at h
       all_goals first
         | (cases h; done)
         | (cases h; exact ⟨rfl, rfl⟩))

theorem parseChunks_zone (chunks : List (List Char × Std)) (f f' : Fields) (v v' : List Char)
    (hc : ∀ c ∈ chunks, c.2 ≠ .stdISO8601ColonTZ) (h : parseChunks chunks f v = some (f', v')) :
    f'.z = f.z ∧ f'.zoneOffset = f.zoneOffset := by
  induction chunks generalizing f v with
  | nil =>
    simp only [parseChunks, Option.some.injEq, Prod.mk.injEq] at h
    rw [h.1]
    exact ⟨rfl, rfl⟩
  | cons c rest ih =>
    obtain ⟨pre, std⟩ := c
    simp only [parseChunks] at h
    cases hs : skip v pre with
    | none => rw [hs] at h; cases h
    | some v1 =>
      rw [hs] at h
      simp only at h
      cases hp : parseStd std (rest.head?.map (·.2)) f v1 with
      | none => rw [hp] at h; cases h
      | some r =>
        obtain ⟨f2, v2⟩ := r
        rw [hp] at h
        simp only at h
        obtain ⟨a1, a2⟩ := parseStd_zone std _ f f2 v1 v2 (hc (pre, std) (by simp)) hp
        obtain ⟨b1, b2⟩ := ih f2 v2 (fun c hm => hc c (by simp [hm])) h
        exact ⟨b1.trans a1, b2.trans a2⟩

/-- Without a zone among the fields, the instant is built in the default
location, whatever the local zone is. -/
theorem build_zoneless (f : Fields) (defaultOffset : Int) (loc : Location)
    (hz : f.z = false) (ho : f.zoneOffset = -1) :
    parse.build f defaultOffset loc =
      (parse.build f 0 UTC).map (fun t => ⟨t.sec - defaultOffset, t.nsec, defaultOffset⟩) := by
  have hD : ∀ y m d h mi sc ns : Int,
      Date y m d h mi sc ns defaultOffset
        = ⟨(Date y m d h mi sc ns 0).sec - defaultOffset, (Date y m d h mi sc ns 0).nsec,
            defaultOffset⟩ := by
    intro y m d h mi sc ns
    simp only [Date, sub_zero]
  simp only [parse.build, hz, ho, Bool.false_eq_true, if_false, ne_eq, not_true_eq_false]
  split_ifs <;> first | rfl | (rw [hD]; rfl)

end GoTime

namespace Import

open GoTime

theorem zoneless_chunks (L : Layout) (hL : L ∈ zoneless) :
    (∀ c ∈ L.chunks, c.2 ≠ .stdISO8601ColonTZ) ∧ L.rest = [] ∧ L ∈ formats := by
  simp only [zoneless, List.mem_cons, List.mem_singleton, List.not_mem_nil, or_false] at hL
  rcases hL with h | h | h | h | h | h <;> subst h <;> decide

/-- A layout without zone reads in the zone of the given offset what it reads
in UTC, shifted by the offset. -/
theorem parse_zoneless (L : Layout) (hL : L ∈ zoneless) (s : List Char) (defaultOffset : Int)
    (loc : Location) :
    parse L s defaultOffset loc =
      (parse L s 0 UTC).map (fun t => ⟨t.sec - defaultOffset, t.nsec, defaultOffset⟩) := by
  obtain ⟨hc, hr, _⟩ := zoneless_chunks L hL
  rw [parse_eq L s defaultOffset loc hr, parse_eq L s 0 UTC hr]
  cases hp : parseChunks L.chunks {} s with
  | none => rfl
  | some r =>
    obtain ⟨f, v⟩ := r
    obtain ⟨hz, ho⟩ := parseChunks_zone L.chunks {} f s v hc hp
    simp only [Option.some_bind, parse.finish]
    split_ifs
    · rfl
    · exact build_zoneless f defaultOffset loc hz ho

theorem parse_zoneless_offset (L : Layout) (hL : L ∈ zoneless) (s : List Char) (t : Time)
    (h : parse L s 0 UTC = some t) : t.offset = 0 := by
  have := parse_zoneless L hL s 0 UTC
  rw [h] at this
  simp only [Option.map_some', Option.some.injEq] at this
  rw [this]

/-- Claim C4, as amended. For every string that a layout without zone accepts,
`parseTimestamp` returns the instant obtained by reading the written date and
time in UTC, whatever the local time zone of the process is: the returned
instant does not depend on the local zone offset.  (Reading the string in a
zone of offset `off` would give the instant `off` seconds earlier.) -/
theorem parseTimestamp_zoneless (loc : Location) (L : Layout) (s : List Char) (t : Time)
    (hL : L ∈ zoneless) (h : Parse loc L s = some t) :
    parseTimestamp loc s = .ok t ∧
    ParseInLocation L s 0 = some t ∧
    t.offset = 0 ∧
    (∀ loc', parseTimestamp loc' s = .ok t) ∧
    (∀ off, ParseInLocation L s off = some ⟨t.sec - off, t.nsec, off⟩) := by
  obtain ⟨_, _, hf⟩ := zoneless_chunks L hL
  have hutc : parse L s 0 UTC = some t := by
    have := parse_zoneless L hL s 0 loc
    unfold Parse at h
    rw [h] at this
    cases hp : parse L s 0 UTC with
    | none => rw [hp] at this; cases this
    | some t0 =>
      rw [hp] at this
      simp only [Option.map_some', Option.some.injEq] at this
      have h0 := parse_zoneless_offset L hL s t0 hp
      rw [this]
      cases t0
      simp only at h0
      simp [h0]
  have hany : ∀ off loc', parse L s off loc' = some ⟨t.sec - off, t.nsec, off⟩ := by
    intro off loc'
    rw [parse_zoneless L hL s off loc', hutc]
    rfl
  have h0 : t.offset = 0 := parse_zoneless_offset L hL s t hutc
  have ht : (⟨t.sec - 0, t.nsec, 0⟩ : Time) = t := by
    cases t
    simp only at h0
    simp [h0]
  refine ⟨parseTimestamp_of_Parse loc s L t hf h, ?_, h0, ?_, ?_⟩
  · unfold ParseInLocation
    rw [hany 0 _, ht]
  · intro loc'
    apply parseTimestamp_of_Parse loc' s L t hf
    unfold Parse
    rw [hany 0 loc', ht]
  · intro off
    exact hany off _

set_option maxRecDepth 8000 in
/-- An instance for claim C4: the text `2024-03-01 08:15` in a process whose
local zone is one hour east of UTC. -/
theorem parseTimestamp_zoneless_witness :
    parseTimestamp (FixedZone 3600) "2024-03-01 08:15".toList = .ok ⟨1709280900, 0, 0⟩ ∧
    ParseInLocation layoutMinutes "2024-03-01 08:15".toList 0 = some ⟨1709280900, 0, 0⟩ :=
  have h := parseTimestamp_zoneless (FixedZone 3600) layoutMinutes "2024-03-01 08:15".toList
    ⟨1709280900, 0, 0⟩ (by decide) (by decide)
  ⟨h.1, h.2.1⟩

set_option maxRecDepth 8000 in
/-- Claim C4 fails as stated. In a process whose local zone is one hour east of
UTC, the layout `2006-01-02 15:04` accepts `2024-03-01 08:15`; read in the local
zone it is the instant 07:15 UTC, and `parseTimestamp` returns 08:15 UTC, as
it does in a process whose local zone is UTC. -/
theorem parseTimestamp_zoneless_counterexample :
    layoutMinutes ∈ zoneless ∧
    Parse (FixedZone 3600) layoutMinutes "2024-03-01 08:15".toList
      = some ⟨1709280900, 0, 0⟩ ∧
    ParseInLocation layoutMinutes "2024-03-01 08:15".toList 3600
      = some ⟨1709277300, 0, 3600⟩ ∧
    parseTimestamp (FixedZone 3600) "2024-03-01 08:15".toList = .ok ⟨1709280900, 0, 0⟩ ∧
    parseTimestamp (FixedZone 3600) "2024-03-01 08:15".toList ≠ .ok ⟨1709277300, 0, 3600⟩ ∧
    parseTimestamp (FixedZone 3600) "2024-03-01 08:15".toList
      = parseTimestamp UTC "2024-03-01 08:15".toList := by
  decide

end Import

/-! ## The round trip through `Format` and `parseTimestamp` -/

namespace Import

open GoTime Spec

/-- The date elements, as `Format` writes them, in front of `rest`. -/
theorem date_stage_time (t : Time) (hy0 : 0 ≤ t.date.1) (hy1 : t.date.1 ≤ 9999) (f : Fields)
    (rest : List Char) :
    parseChunks dateChunks f
        (appendInt t.date.1 4 ++ '-' :: (appendInt t.date.2.1 2 ++ '-' ::
          (appendInt t.date.2.2 2 ++ rest)))
      = some ({ f with year := t.date.1, month := t.date.2.1, day := t.date.2.2 }, rest) := by
  obtain ⟨hm1, hm2, hd1, hd2, _⟩ := Date_date_clock t
  have := daysIn_le t.date.2.1 t.date.1 hm1 hm2
  exact date_stage _ _ _ hy0 hy1 hm1 hm2 (by omega) (by omega) f rest

/-- The clock elements, as `Format` writes them, in front of `rest`. -/
theorem clock_stage_time (t : Time) (sep : Char) (hsep : sep = 'T' ∨ sep = ' ') (f : Fields)
    (rest : List Char) :
    parseChunks (clockChunks sep) f
        (sep :: (appendInt t.clock.1 2 ++ ':' :: (appendInt t.clock.2.1 2 ++ rest)))
      = some ({ f with hour := t.clock.1, min := t.clock.2.1 }, rest) := by
  obtain ⟨_, _, _, _, h1, h2, h3, h4, _⟩ := Date_date_clock t
  exact clock_stage sep hsep _ _ h1 h2 h3 h4 f rest

/-- The seconds element, as `Format` writes it, with the fraction that
`RFC3339Nano` writes after it, in front of `rest`. -/
theorem second_stage_time (t : Time) (hn0 : 0 ≤ t.nsec) (hn1 : t.nsec < 1000000000)
    (f : Fields) (hf : f.nsec = 0) (rest : List Char)
    (hrest : ∀ c, rest.head? = some c → commaOrPeriod c = false ∧ isDigit c = false) :
    parseChunks secondChunks f (':' :: (appendInt t.clock.2.2 2 ++ (appendNano t.nsec ++ rest)))
      = some ({ f with sec := t.clock.2.2, nsec := t.nsec }, rest) := by
  obtain ⟨_, _, _, _, _, _, _, _, h5, h6, _⟩ := Date_date_clock t
  exact second_stage _ _ h5 h6 hn0 hn1 f hf rest hrest

theorem Format_layoutDate (t : Time) :
    Format t layoutDate
      = appendInt t.date.1 4 ++ '-' :: (appendInt t.date.2.1 2 ++ '-' ::
          (appendInt t.date.2.2 2 ++ [])) := by
  simp [Format, layoutDate, formatStd]

theorem Format_minutes (t : Time) (sep : Char) (L : Layout)
    (hc : L.chunks = dateChunks ++ clockChunks sep) (hr : L.rest = []) :
    Format t L
      = appendInt t.date.1 4 ++ '-' :: (appendInt t.date.2.1 2 ++ '-' ::
          (appendInt t.date.2.2 2 ++
            (sep :: (appendInt t.clock.1 2 ++ ':' :: (appendInt t.clock.2.1 2 ++ []))))) := by
  simp [Format, hc, hr, dateChunks, clockChunks, formatStd]

theorem Format_seconds (t : Time) (sep : Char) (L : Layout)
    (hc : L.chunks = dateChunks ++ (clockChunks sep ++ secondChunks)) (hr : L.rest = [])
    (hn : t.nsec = 0) :
    Format t L
      = appendInt t.date.1 4 ++ '-' :: (appendInt t.date.2.1 2 ++ '-' ::
          (appendInt t.date.2.2 2 ++
            (sep :: (appendInt t.clock.1 2 ++ ':' :: (appendInt t.clock.2.1 2 ++
              (':' :: (appendInt t.clock.2.2 2 ++ (appendNano t.nsec ++ [])))))))) := by
  have : appendNano t.nsec = [] := by rw [hn]; rfl
  simp [Format, hc, hr, dateChunks, clockChunks, secondChunks, formatStd, this]

/-- What `RFC3339Nano` writes; `RFC3339` writes the same for a time without
fraction of a second. -/
theorem Format_RFC3339Nano (t : Time) :
    Format t RFC3339Nano
      = appendInt t.date.1 4 ++ '-' :: (appendInt t.date.2.1 2 ++ '-' ::
          (appendInt t.date.2.2 2 ++
            ('T' :: (appendInt t.clock.1 2 ++ ':' :: (appendInt t.clock.2.1 2 ++
              (':' :: (appendInt t.clock.2.2 2 ++
                (appendNano t.nsec ++ formatStd t .stdISO8601ColonTZ)))))))) := by
  simp [Format, RFC3339Nano]
  simp [formatStd]

theorem Format_RFC3339 (t : Time) (hn : t.nsec = 0) :
    Format t RFC3339 = Format t RFC3339Nano := by
  have : appendNano t.nsec = [] := by rw [hn]; rfl
  rw [Format_RFC3339Nano, this]
  simp [Format, RFC3339]
  simp [formatStd]

theorem Format_layoutDayFirst (t : Time) :
    Format t layoutDayFirst
      = appendInt t.date.2.2 2 ++ '/' :: (appendInt t.date.2.1 2 ++ '/' ::
          (appendInt t.date.1 4 ++ ',' :: (appendInt t.clock.1 2 ++ ':' ::
            (appendInt t.clock.2.1 2 ++ [])))) := by
  simp [Format, layoutDayFirst, formatStd]

theorem finish_nil (loc : Location) (f : Fields) :
    parse.finish 0 loc (f, []) = parse.build f 0 loc := by
  simp [parse.finish]

/-- Each layout reads back what it writes for a time that it writes without
loss. -/
theorem Parse_Format (loc : Location) (L : Layout) (t : Time) (hL : L ∈ formats)
    (hw : writable L t) : Parse loc L (Format t L) = some t := by
  obtain ⟨hy0, hy1, hn0, hn1, hfrac, hsec, hclock, hzone⟩ := hw
  have hnil : ∀ c, ([] : List Char).head? = some c → commaOrPeriod c = false ∧ isDigit c = false := by
    intro c hc
    cases hc
  simp only [formats, List.mem_cons, List.mem_singleton, List.not_mem_nil, or_false] at hL
  rcases hL with hL | hL | hL | hL | hL | hL | hL | hL <;> subst hL
  · -- 02/01/2006,15:04
    have hn : t.nsec = 0 := hfrac (by decide)
    have hs : t.clock.2.2 = 0 := hsec (by decide)
    have ho : t.offset = 0 := by simpa [hasStd, layoutDayFirst] using hzone
    obtain ⟨hm1, hm2, hd1, hd2, c1, c2, c3, c4, _⟩ := Date_date_clock t
    have hd3 := daysIn_le t.date.2.1 t.date.1 hm1 hm2
    have hsk : ∀ v, skip v [] = some v := fun v => rfl
    unfold Parse
    rw [parse_eq layoutDayFirst _ 0 loc rfl, Format_layoutDayFirst]
    simp only [layoutDayFirst, parseChunks, hsk, parseStd_day _ (by omega : 0 ≤ t.date.2.2)
      (by omega), skip_char '/' _ (by decide), parseStd_month _ hm1 hm2,
      parseStd_year _ hy0 hy1, skip_char ',' _ (by decide), parseStd_hour _ c1 c2,
      skip_char ':' _ (by decide), parseStd_minute _ c3 c4, Option.some_bind, finish_nil]
    rw [← build_of_fields t loc false (-1) (Or.inr (Or.inl ⟨rfl, rfl, ho⟩)), hn, hs]
  · -- RFC3339
    have hn : t.nsec = 0 := hfrac (by decide)
    have hz : t.offset % 60 = 0 ∧ -90000 < t.offset ∧ t.offset < 90000 := by
      simpa [hasStd, RFC3339] using hzone
    rw [Parse_RFC3339, Format_RFC3339 t hn, Format_RFC3339Nano, date_stage_time t hy0 hy1]
    simp only [Option.some_bind]
    rw [clock_stage_time t 'T' (Or.inl rfl)]
    simp only [Option.some_bind]
    rw [second_stage_time t hn0 hn1 _ rfl _ (zone_head t)]
    simp only [Option.some_bind]
    rw [zone_stage t _ hz.1 hz.2.1 hz.2.2]
    simp only [Option.some_bind, finish_nil]
    by_cases ho : t.offset = 0
    · simp only [ho, if_true]
      exact build_of_fields t loc true (-1) (Or.inl ⟨rfl, ho⟩)
    · simp only [ho, if_false]
      exact build_of_fields t loc false t.offset (Or.inr (Or.inr ⟨rfl, rfl, hz.1⟩))
  · -- RFC3339Nano
    have hz : t.offset % 60 = 0 ∧ -90000 < t.offset ∧ t.offset < 90000 := by
      simpa [hasStd, RFC3339Nano] using hzone
    rw [Parse_RFC3339Nano, Parse_RFC3339, Format_RFC3339Nano, date_stage_time t hy0 hy1]
    simp only [Option.some_bind]
    rw [clock_stage_time t 'T' (Or.inl rfl)]
    simp only [Option.some_bind]
    rw [second_stage_time t hn0 hn1 _ rfl _ (zone_head t)]
    simp only [Option.some_bind]
    rw [zone_stage t _ hz.1 hz.2.1 hz.2.2]
    simp only [Option.some_bind, finish_nil]
    by_cases ho : t.offset = 0
    · simp only [ho, if_true]
      exact build_of_fields t loc true (-1) (Or.inl ⟨rfl, ho⟩)
    · simp only [ho, if_false]
      exact build_of_fields t loc false t.offset (Or.inr (Or.inr ⟨rfl, rfl, hz.1⟩))
  · -- 2006-01-02T15:04:05
    have hn : t.nsec = 0 := hfrac (by decide)
    have ho : t.offset = 0 := by simpa [hasStd, layoutSecondsT] using hzone
    rw [Parse_seconds loc _ 'T' layoutSecondsT rfl rfl, Format_seconds t 'T' layoutSecondsT rfl rfl hn,
      date_stage_time t hy0 hy1]
    simp only [Option.some_bind]
    rw [clock_stage_time t 'T' (Or.inl rfl)]
    simp only [Option.some_bind]
    rw [second_stage_time t hn0 hn1 _ rfl _ hnil]
    simp only [Option.some_bind, finish_nil]
    exact build_of_fields t loc false (-1) (Or.inr (Or.inl ⟨rfl, rfl, ho⟩))
  · -- 2006-01-02 15:04:05
    have hn : t.nsec = 0 := hfrac (by decide)
    have ho : t.offset = 0 := by simpa [hasStd, layoutSeconds] using hzone
    rw [Parse_seconds loc _ ' ' layoutSeconds rfl rfl, Format_seconds t ' ' layoutSeconds rfl rfl hn,
      date_stage_time t hy0 hy1]
    simp only [Option.some_bind]
    rw [clock_stage_time t ' ' (Or.inr rfl)]
    simp only [Option.some_bind]
    rw [second_stage_time t hn0 hn1 _ rfl _ hnil]
    simp only [Option.some_bind, finish_nil]
    exact build_of_fields t loc false (-1) (Or.inr (Or.inl ⟨rfl, rfl, ho⟩))
  · -- 2006-01-02T15:04
    have hn : t.nsec = 0 := hfrac (by decide)
    have hs : t.clock.2.2 = 0 := hsec (by decide)
    have ho : t.offset = 0 := by simpa [hasStd, layoutMinutesT] using hzone
    rw [Parse_minutes loc _ 'T' layoutMinutesT rfl rfl, Format_minutes t 'T' layoutMinutesT rfl rfl,
      date_stage_time t hy0 hy1]
    simp only [Option.some_bind]
    rw [clock_stage_time t 'T' (Or.inl rfl)]
    simp only [Option.some_bind, finish_nil]
    rw [← build_of_fields t loc false (-1) (Or.inr (Or.inl ⟨rfl, rfl, ho⟩)), hn, hs]
  · -- 2006-01-02 15:04
    have hn : t.nsec = 0 := hfrac (by decide)
    have hs : t.clock.2.2 = 0 := hsec (by decide)
    have ho : t.offset = 0 := by simpa [hasStd, layoutMinutes] using hzone
    rw [Parse_minutes loc _ ' ' layoutMinutes rfl rfl, Format_minutes t ' ' layoutMinutes rfl rfl,
      date_stage_time t hy0 hy1]
    simp only [Option.some_bind]
    rw [clock_stage_time t ' ' (Or.inr rfl)]
    simp only [Option.some_bind, finish_nil]
    rw [← build_of_fields t loc false (-1) (Or.inr (Or.inl ⟨rfl, rfl, ho⟩)), hn, hs]
  · -- 2006-01-02
    have hn : t.nsec = 0 := hfrac (by decide)
    have hs : t.clock.2.2 = 0 := hsec (by decide)
    have hc : t.clock.1 = 0 ∧ t.clock.2.1 = 0 := hclock (by decide)
    have ho : t.offset = 0 := by simpa [hasStd, layoutDate] using hzone
    rw [Parse_layoutDate, Format_layoutDate, date_stage_time t hy0 hy1]
    simp only [Option.some_bind, finish_nil]
    rw [← build_of_fields t loc false (-1) (Or.inr (Or.inl ⟨rfl, rfl, ho⟩)), hn, hs, hc.1, hc.2]

/-- Claim C3, as amended. Round trip per layout: for every layout `L` of the eight
layouts and every time `t` that `L` writes without loss (a year of four digits;
no fraction of a second unless `L` is `RFC3339Nano`; no seconds for the layouts
without seconds; midnight for the date layout; UTC for the six layouts without
zone, a zone of whole minutes for the two with zone), `parseTimestamp` applied
to `t` formatted with `L` succeeds and returns `t`. -/
theorem parseTimestamp_Format (loc : Location) (L : Layout) (t : Time) (hL : L ∈ formats)
    (hw : writable L t) : parseTimestamp loc (Format t L) = .ok t :=
  parseTimestamp_of_Parse loc (Format t L) L t hL (Parse_Format loc L t hL hw)

set_option maxRecDepth 16000 in
/-- An instance for claim C3: 1 March 2024 09:15:00.123456789 in a zone one
hour east of UTC, written with `RFC3339Nano`. -/
theorem parseTimestamp_Format_witness :
    Format ⟨1709280900, 123456789, 3600⟩ RFC3339Nano
      = "2024-03-01T09:15:00.123456789+01:00".toList ∧
    parseTimestamp UTC (Format ⟨1709280900, 123456789, 3600⟩ RFC3339Nano)
      = .ok ⟨1709280900, 123456789, 3600⟩ :=
  ⟨by decide,
    parseTimestamp_Format UTC RFC3339Nano ⟨1709280900, 123456789, 3600⟩ (by decide) (by decide)⟩

set_option maxRecDepth 16000 in
/-- Claim C3 fails as stated. The instant 1 March 2024 08:15:00 UTC, formatted
with the layout `2006-01-02`, is `2024-03-01`, and `parseTimestamp` returns
midnight of that day, not the instant. -/
theorem parseTimestamp_Format_counterexample :
    layoutDate ∈ formats ∧
    Format ⟨1709280900, 0, 0⟩ layoutDate = "2024-03-01".toList ∧
    parseTimestamp UTC (Format ⟨1709280900, 0, 0⟩ layoutDate) = .ok ⟨1709251200, 0, 0⟩ ∧
    parseTimestamp UTC (Format ⟨1709280900, 0, 0⟩ layoutDate) ≠ .ok ⟨1709280900, 0, 0⟩ := by
  decide

end Import

/-! ## The Loki client -/

namespace Loki

open GoTime Spec

theorem wrapInt64_of_range (x : Int) (h1 : minInt64 ≤ x) (h2 : x ≤ maxInt64) :
    wrapInt64 x = x := by
  simp only [wrapInt64, minInt64, maxInt64] at *
  omega

/-- Claim C5, as amended. For every label set, line and instant `T` whose
nanoseconds since the Unix epoch fit an `int64`, the body that `Push` hands to
the HTTP client has exactly one stream, whose `stream` field is the label set
and whose `values` field is the single pair of a string holding the decimal
integer of `T`'s nanoseconds since the Unix epoch (the one `FormatInt` writes)
and the line. -/
theorem Push_body (post : pushRequest → PostResult) (labels : Labels) (T : Time)
    (line : List Char) (h1 : minInt64 ≤ T.nanosSinceEpoch) (h2 : T.nanosSinceEpoch ≤ maxInt64) :
    Push.req labels T line
      = { Streams := [{ Stream := labels,
                        Values := [[FormatInt T.nanosSinceEpoch, line]] }] } ∧
    decimalValue (FormatInt T.nanosSinceEpoch) = some T.nanosSinceEpoch ∧
    Push post labels T line =
      (match post { Streams := [{ Stream := labels,
                                  Values := [[FormatInt T.nanosSinceEpoch, line]] }] } with
        | .transportError => .error "push to loki"
        | .response StatusCode =>
          if StatusCode ≠ 204 ∧ StatusCode ≠ 200 then .error "loki push failed" else .ok ()) := by
  have hw : T.UnixNano = T.nanosSinceEpoch := wrapInt64_of_range _ h1 h2
  refine ⟨?_, decimalValue_FormatInt _, ?_⟩
  · simp only [Push.req, hw]
  · simp only [Push, Push.req, hw]

/-- An instance for claim C5, the example of the specification: labels
`{app:"counter"}`, line `"increment"`, at 1 March 2024 08:15:00.5 UTC. -/
theorem Push_body_witness :
    Push.req [("app".toList, "counter".toList)] ⟨1709280900, 500000000, 0⟩ "increment".toList
      = { Streams := [{ Stream := [("app".toList, "counter".toList)],
                        Values := [["1709280900500000000".toList, "increment".toList]] }] } :=
  (Push_body (fun _ => .response 204) [("app".toList, "counter".toList)]
    ⟨1709280900, 500000000, 0⟩ "increment".toList (by decide) (by decide)).1

/-- Claim C5 fails as stated. For the instant 1 January 3000 00:00:00 UTC the
string that `Push` sends is not the decimal string of the nanoseconds since
the Unix epoch: `UnixNano` has wrapped around. -/
theorem Push_body_counterexample :
    Push.req [("app".toList, "counter".toList)] ⟨32503680000, 0, 0⟩ "increment".toList
      ≠ pushRequest.mk [stream.mk [("app".toList, "counter".toList)]
            [[FormatInt (Time.nanosSinceEpoch ⟨32503680000, 0, 0⟩), "increment".toList]]] ∧
    Push.req [("app".toList, "counter".toList)] ⟨32503680000, 0, 0⟩ "increment".toList
      = pushRequest.mk [stream.mk [("app".toList, "counter".toList)]
            [["-4389808147419103232".toList, "increment".toList]]] := by
  decide

/-! ### `CountSince`: the query -/

theorem loop_false (labels : Labels) (sel : List Char) :
    labelSelector.loop labels sel false
      = sel ++ (labels.map (fun kv => ',' :: (kv.1 ++ ['=', '"'] ++ kv.2 ++ ['"']))).flatten := by
  induction labels generalizing sel with
  | nil => simp [labelSelector.loop]
  | cons kv rest ih =>
    obtain ⟨k, v⟩ := kv
    simp [labelSelector.loop, ih]

theorem intercalate_cons (sep x : List Char) (xs : List (List Char)) :
    sep.intercalate (x :: xs) = x ++ (xs.map (fun y => sep ++ y)).flatten := by
  induction xs generalizing x with
  | nil => simp [List.intercalate]
  | cons y ys ih =>
    have := ih y
    simp only [List.intercalate, List.intersperse_cons_cons, List.flatten_cons, List.map_cons]
      at this ⊢
    rw [this]
    simp only [List.append_assoc]

theorem labelSelector_eq (labels : Labels) : labelSelector labels = selector labels := by
  cases labels with
  | nil => simp [labelSelector, labelSelector.loop, selector, List.intercalate]
  | cons kv rest =>
    obtain ⟨k, v⟩ := kv
    simp only [labelSelector, labelSelector.loop, selector, List.map_cons, intercalate_cons,
      Bool.not_true, Bool.false_eq_true, if_false, loop_false, List.map_map]
    simp [Function.comp_def]

theorem duration_eq (now since : Time) :
    CountSince.duration now since = cappedWindow now since := by
  simp only [CountSince.duration, cappedWindow, Time.Sub, Truncate, Second, maxDuration,
    minDuration, maxInt64, minInt64, Time.nanosSinceEpoch]
  generalize now.sec = a
  generalize since.sec = b
  generalize now.nsec = c
  generalize since.nsec = d
  norm_num
  split_ifs <;> omega

set_option maxRecDepth 8000 in
/-- Claim C6, as amended. For every label set (in whatever order the loop visits
it), every `since` and every clock reading `now`, the query that `CountSince`
builds is `count_over_time(S[D])`: `S` is the label set with each label
written `key="value"`, the labels joined by commas and braces around them; `D`
is `now - since`, capped at the greatest `Duration` (`2^63 - 1` nanoseconds)
when it is above it, floored to whole seconds, and one second whenever that is
less than one second, as for a `since` in the future.  `D` is written the way
`Duration.String` writes it. -/
theorem CountSince_query (labels : Labels) (now since : Time) :
    CountSince.query labels now since
      = "count_over_time(".toList ++ selector labels ++ ['[']
          ++ durationString (cappedWindow now since) ++ "])".toList ∧
    (now.nanosSinceEpoch - since.nanosSinceEpoch ≤ maxDuration →
      cappedWindow now since = window now since) ∧
    (now.nanosSinceEpoch < since.nanosSinceEpoch → cappedWindow now since = 1000000000) ∧
    CountSince.query [("app".toList, "counter".toList)] ⟨1709280900, 250000000, 0⟩
        ⟨1709251200, 0, 0⟩
      = "count_over_time(\x7bapp=\"counter\"\x7d[8h15m0s])".toList := by
  refine ⟨?_, ?_, ?_, ?_⟩
  · simp only [CountSince.query, labelSelector_eq, duration_eq]
  · intro h
    simp only [cappedWindow, window, min_eq_left h]
  · intro h
    simp only [cappedWindow, maxDuration, maxInt64]
    have : min (now.nanosSinceEpoch - since.nanosSinceEpoch) (2 ^ 63 - 1)
        = now.nanosSinceEpoch - since.nanosSinceEpoch := min_eq_left (by omega)
    rw [this]
    split_ifs <;> omega
  · decide

set_option maxRecDepth 8000 in
/-- Claim C6 fails as stated. With `since` the zero time (1 January of year 1)
and `now` 1 March 2024 08:15:00 UTC, `now - since` does not fit a `Duration`: the
query holds the greatest duration, floored to seconds, not `now - since`. -/
theorem CountSince_query_counterexample :
    CountSince.query [("app".toList, "counter".toList)] ⟨1709280900, 0, 0⟩ zeroTime
      ≠ "count_over_time(".toList ++ selector [("app".toList, "counter".toList)] ++ ['[']
          ++ durationString (window ⟨1709280900, 0, 0⟩ zeroTime) ++ "])".toList ∧
    CountSince.query [("app".toList, "counter".toList)] ⟨1709280900, 0, 0⟩ zeroTime
      = "count_over_time(\x7bapp=\"counter\"\x7d[2562047h47m16s])".toList ∧
    durationString (window ⟨1709280900, 0, 0⟩ zeroTime) = "17734688h15m0s".toList := by
  decide

/-! ### `CountSince` and `LastTimestamp`: the decoded response -/

/-- `ParseInt` fails exactly when the string holds no decimal integer that is
an `int64`. -/
theorem ParseInt_error_iff (s : List Char) :
    (∃ e, ParseInt s = .error e) ↔
      ∀ v, decimalValue s = some v → ¬ (minInt64 ≤ v ∧ v ≤ maxInt64) := by
  constructor
  · rintro ⟨e, he⟩ v hv ⟨h1, h2⟩
    rw [(ParseInt_ok_iff s v).2 ⟨hv, h1, h2⟩] at he
    cases he
  · intro h
    cases hp : ParseInt s with
    | error e => exact ⟨e, rfl⟩
    | ok v =>
      obtain ⟨h1, h2, h3⟩ := (ParseInt_ok_iff s v).1 hp
      exact absurd ⟨h2, h3⟩ (h v h1)

/-- What `CountSince` returns for a decoded response, by the shape of the
response. -/
theorem CountSince_decoded_eq (result : queryResponse) :
    CountSince.decoded result =
      match result.Data.Result with
      | [] => .ok 0
      | r0 :: _ =>
        match r0.Value with
        | _ :: .string countStr :: _ =>
          (match decimalValue countStr with
            | some v => if minInt64 ≤ v ∧ v ≤ maxInt64 then .ok v else .error "parse count"
            | none => .error "parse count")
        | _ :: _ :: _ => .error "unexpected count type"
        | _ => .ok 0 := by
  unfold CountSince.decoded
  rcases hres : result.Data.Result with _ | ⟨r0, rest⟩
  · simp
  · simp only [List.length_cons, Nat.add_one_ne_zero, if_false, List.get?_cons_zero]
    rcases hv : r0.Value with _ | ⟨x, _ | ⟨y, ys⟩⟩
    · simp
    · simp
    · simp only [List.length_cons, List.get?_cons_succ, List.get?_cons_zero]
      have hlen : ¬ (ys.length + 1 + 1 < 2) := by omega
      simp only [hlen, if_false]
      cases y with
      | string countStr =>
        simp only [Atoi]
        cases hd : decimalValue countStr with
        | none =>
          obtain ⟨e, he⟩ := (ParseInt_error_iff countStr).2 (by simp [hd])
          simp [he]
        | some v =>
          by_cases hr : minInt64 ≤ v ∧ v ≤ maxInt64
          · simp [(ParseInt_ok_iff countStr v).2 ⟨hd, hr.1, hr.2⟩, hr]
          · obtain ⟨e, he⟩ := (ParseInt_error_iff countStr).2 (by
              intro w hw
              rw [hd] at hw
              cases hw
              exact hr)
            simp [he, hr]
      | null => rfl
      | bool b => rfl
      | number t => rfl
      | composite => rfl

/-- Claim C7, as amended. For every decoded response, `CountSince` returns 0
and no error when the result list is empty (and when the first series has
fewer than two elements in `value`); when the first series has a count field,
it returns the field's integer if the field is a string holding a decimal
integer from `-2^63` to `2^63 - 1`, an error if the field is a string holding
anything else, and an error if the field is not a string.  It never panics. -/
theorem CountSince_decoded_spec (result : queryResponse) :
    (CountSince.decoded result =
      match result.Data.Result with
      | [] => .ok 0
      | r0 :: _ =>
        match r0.Value with
        | _ :: .string countStr :: _ =>
          (match decimalValue countStr with
            | some v => if minInt64 ≤ v ∧ v ≤ maxInt64 then .ok v else .error "parse count"
            | none => .error "parse count")
        | _ :: _ :: _ => .error "unexpected count type"
        | _ => .ok 0) ∧
    (∀ get labels now since, get (CountSince.query labels now since) = .response 200 (some result) →
      CountSince get labels now since = CountSince.decoded result) ∧
    (∀ (n : Int) (ts : JsonValue), minInt64 ≤ n → n ≤ maxInt64 →
      CountSince.decoded
          ⟨"success".toList, ⟨"vector".toList, [⟨[ts, .string (FormatInt n)], []⟩]⟩⟩ = .ok n) := by
  refine ⟨CountSince_decoded_eq result, ?_, ?_⟩
  · intro get labels now since h
    simp [CountSince, h]
  · intro n ts h1 h2
    simp [CountSince.decoded, Atoi, ParseInt_FormatInt n h1 h2]

/-- Claim C7 fails as stated. The count field `"9223372036854775808"` is a
string holding a decimal integer, and `CountSince` returns an error, not that
integer. -/
theorem CountSince_decoded_counterexample :
    decimalValue "9223372036854775808".toList = some 9223372036854775808 ∧
    CountSince.decoded
        ⟨"success".toList, ⟨"vector".toList,
          [⟨[.number "1709280900".toList, .string "9223372036854775808".toList], []⟩]⟩⟩
      = .error "parse count" := by
  decide

theorem Unix_nanos (loc : Location) (v : Int) :
    (Unix loc v).nanosSinceEpoch = v ∧ 0 ≤ (Unix loc v).nsec ∧ (Unix loc v).nsec < 1000000000 := by
  simp only [Unix, Time.nanosSinceEpoch]
  omega

/-- Claim C8, as amended. For every decoded response, `LastTimestamp` returns the
zero time and no error when the response has no series or its first series
has no entries; when the first entry has a first element, it returns the
instant whose nanoseconds since the Unix epoch are the decimal integer that
the element holds if that is an integer from `-2^63` to `2^63 - 1`, and an
error if the element holds anything else.  (Nothing is said of a first entry
without elements.) -/
theorem LastTimestamp_decoded_spec (loc : Location) (result : queryResponse) :
    (match result.Data.Result with
      | [] => LastTimestamp.decoded loc result = .ok zeroTime
      | r0 :: _ =>
        match r0.Values with
        | [] => LastTimestamp.decoded loc result = .ok zeroTime
        | [] :: _ => True
        | (tsStr :: _) :: _ =>
          match decimalValue tsStr with
          | some v =>
            if minInt64 ≤ v ∧ v ≤ maxInt64 then
              LastTimestamp.decoded loc result = .ok (Unix loc v) ∧
                (Unix loc v).nanosSinceEpoch = v ∧
                0 ≤ (Unix loc v).nsec ∧ (Unix loc v).nsec < 1000000000
            else LastTimestamp.decoded loc result = .error "parse timestamp"
          | none => LastTimestamp.decoded loc result = .error "parse timestamp") ∧
    (∀ get labels, get (labelSelector labels) = .response 200 (some result) →
      LastTimestamp get loc labels = LastTimestamp.decoded loc result) ∧
    (∀ (n : Int) (line : List Char), minInt64 ≤ n → n ≤ maxInt64 →
      LastTimestamp.decoded loc
          ⟨"success".toList, ⟨"streams".toList, [⟨[], [[FormatInt n, line]]⟩]⟩⟩
        = .ok (Unix loc n)) := by
  refine ⟨?_, fun get labels h => by simp [LastTimestamp, h], fun n line h1 h2 => by
    simp [LastTimestamp.decoded, ParseInt_FormatInt n h1 h2]⟩
  unfold LastTimestamp.decoded
  rcases hres : result.Data.Result with _ | ⟨r0, rest⟩
  · simp
  · rcases hv : r0.Values with _ | ⟨_ | ⟨tsStr, e⟩, es⟩
    · simp [hv]
    · simp [hv]
    · simp only [List.length_cons, Nat.add_one_ne_zero, decide_False, List.get?_cons_zero, hv,
        Bool.or_self, Bool.false_eq_true, if_false]
      cases hd : decimalValue tsStr with
      | none =>
        obtain ⟨err, he⟩ := (ParseInt_error_iff tsStr).2 (by simp [hd])
        simp [he]
      | some v =>
        by_cases hr : minInt64 ≤ v ∧ v ≤ maxInt64
        · simp only [(ParseInt_ok_iff tsStr v).2 ⟨hd, hr.1, hr.2⟩, hr, and_self, if_true, true_and]
          exact Unix_nanos loc v
        · obtain ⟨err, he⟩ := (ParseInt_error_iff tsStr).2 (by
            intro w hw
            rw [hd] at hw
            cases hw
            exact hr)
          simp [he, hr]

/-- Claim C8 fails as stated. The first element `"9223372036854775808"` of the
first entry is a decimal integer, and `LastTimestamp` returns an error, not
the instant that many nanoseconds after the Unix epoch. -/
theorem LastTimestamp_decoded_counterexample :
    decimalValue "9223372036854775808".toList = some 9223372036854775808 ∧
    LastTimestamp.decoded UTC
        ⟨"success".toList, ⟨"streams".toList,
          [⟨[], [["9223372036854775808".toList, "increment ip=10.0.0.7".toList]]⟩]⟩⟩
      = .error "parse timestamp" := by
  decide

/-- Claim C10, the failing input. For the response body
`{"status":"success","data":{"resultType":"streams","result":[{"values":[[]]}]}}`
with status 200, `LastTimestamp` neither returns a result nor an error: the
index expression `Values[0][0]` panics.  `CountSince` has the length check, and
panics on no decoded response. -/
theorem LastTimestamp_panics_on_empty_entry :
    (∀ loc, LastTimestamp.decoded loc ⟨"success".toList, ⟨"streams".toList, [⟨[], [[]]⟩]⟩⟩
      = .panic "index out of range [0] with length 0") ∧
    (∀ loc labels,
      LastTimestamp
          (fun _ => .response 200 (some ⟨"success".toList, ⟨"streams".toList, [⟨[], [[]]⟩]⟩⟩))
          loc labels
        = .panic "index out of range [0] with length 0") ∧
    (∀ result msg, CountSince.decoded result ≠ .panic msg) := by
  refine ⟨fun loc => rfl, fun loc labels => rfl, ?_⟩
  intro result msg
  rw [CountSince_decoded_eq]
  split
  · simp
  · split
    · split
      · split <;> simp
      · simp
    · simp
    · simp

end Loki

/-! ## The import loop -/

namespace Import

open GoTime Loki

end Import

/-! ## `net.SplitHostPort` and `clientIP` -/

theorem IndexByte_drop (s : List Char) (c : Char) (e : Nat) (h : IndexByte s c = some e) :
    s.drop e = c :: s.drop (e + 1) := by
  induction s generalizing e with
  | nil => simp [IndexByte] at h
  | cons x xs ih =>
    unfold IndexByte at h
    by_cases hx : x = c
    · simp only [hx, if_true, Option.some.injEq] at h
      subst h
      simp [hx]
    · simp only [hx, if_false, Option.map_eq_some'] at h
      obtain ⟨j, hj, rfl⟩ := h
      simpa using ih j hj

theorem LastIndexByte_drop (s : List Char) (c : Char) (i : Nat)
    (h : LastIndexByte s c = some i) : s.drop i = c :: s.drop (i + 1) := by
  induction s generalizing i with
  | nil => simp [LastIndexByte] at h
  | cons x xs ih =>
    unfold LastIndexByte at h
    cases hl : LastIndexByte xs c with
    | some j =>
      rw [hl] at h
      simp only [Option.some.injEq] at h
      subst h
      simpa using ih j hl
    | none =>
      rw [hl] at h
      by_cases hx : x = c
      · simp only [hx, if_true, Option.some.injEq] at h
        subst h
        simp [hx]
      · simp [hx] at h

theorem SplitHostPort_form (a host port : List Char)
    (h : SplitHostPort a = .ok (host, port)) :
    a = host ++ ':' :: port ∨ a = '[' :: host ++ ']' :: ':' :: port := by
  unfold SplitHostPort at h
  cases hl : LastIndexByte a ':' with
  | none => simp [hl] at h
  | some i =>
    have hcolon := LastIndexByte_drop a ':' i hl
    simp only [hl] at h
    by_cases hb : a.head? = some '['
    · -- a host in brackets
      simp only [hb, if_true] at h
      cases he : IndexByte a ']' with
      | none => simp [he] at h
      | some e =>
        have hclose := IndexByte_drop a ']' e he
        simp only [he] at h
        by_cases h4 : e + 1 = a.length
        · simp [h4] at h
        by_cases h5 : e + 1 = i
        swap
        · simp only [h4, h5, if_false] at h
          split_ifs at h
        simp only [h4, h5, if_true, if_false] at h
        split_ifs at h
        simp only [Except.ok.injEq, Prod.mk.injEq] at h
        obtain ⟨hh, hp⟩ := h
        right
        subst h5
        rw [hcolon] at hclose
        cases a with
        | nil => simp at hb
        | cons x xs =>
          simp only [List.head?_cons, Option.some.injEq] at hb
          subst hb
          cases e with
          | zero => simp [IndexByte] at he
          | succ e =>
            simp only [List.take_succ_cons, List.drop_succ_cons, List.drop_zero] at hh hclose hp
            rw [← hh, ← hp]
            have := List.take_append_drop e xs
            rw [hclose] at this
            simp only [List.cons_append, List.cons.injEq, true_and]
            exact this.symm
    · simp only [hb, if_false] at h
      split_ifs at h
      simp only [Except.ok.injEq, Prod.mk.injEq] at h
      obtain ⟨hh, hp⟩ := h
      left
      rw [← hh, ← hp, ← hcolon]
      exact (List.take_append_drop i a).symm

namespace Server

theorem scan_eq (seen xff : List Char) :
    (clientIP.scan seen xff).getD (seen ++ xff) = seen ++ xff.takeWhile (· ≠ ',') := by
  induction xff generalizing seen with
  | nil => simp [clientIP.scan]
  | cons c rest ih =>
    by_cases h : c = ','
    · simp [clientIP.scan, h]
    · have := ih (seen ++ [c])
      simp only [List.append_assoc, List.singleton_append] at this
      simp only [clientIP.scan, h, if_false, this]
      simp [List.takeWhile, h]

theorem clientIP_eq (r : Request) :
    clientIP r =
      if r.Get "X-Forwarded-For" ≠ [] then (r.Get "X-Forwarded-For").takeWhile (· ≠ ',')
      else if r.Get "X-Real-IP" ≠ [] then r.Get "X-Real-IP"
      else
        match SplitHostPort r.RemoteAddr with
        | .ok (host, _) => host
        | .error _ => r.RemoteAddr := by
  unfold clientIP
  by_cases hx : r.Get "X-Forwarded-For" = []
  · simp only [hx, ne_eq, not_true_eq_false, if_false]
    split_ifs
    · generalize SplitHostPort r.RemoteAddr = x
      rcases x with e | ⟨host, p⟩ <;> rfl
    · rfl
  · have hlen : (r.Get "X-Forwarded-For").length > 0 := List.length_pos.mpr hx
    simp only [ne_eq, hx, not_false_eq_true, if_true, hlen]
    have := scan_eq [] (r.Get "X-Forwarded-For")
    simp only [List.nil_append] at this
    rw [← this]
    cases clientIP.scan [] (r.Get "X-Forwarded-For") <;> rfl

/-- Claim C1. `clientIP` returns: when `X-Forwarded-For` is not empty, the part
of it before its first comma (all of it without a comma), whatever `X-Real-IP`
and the remote address are; else `X-Real-IP` when that is not empty; else the
host that `net.SplitHostPort` cuts off the remote address, which then has the
form `host:port` or `[host]:port`, and the remote address unchanged when
`net.SplitHostPort` rejects it.  `X-Forwarded-For: 1.2.3.4, 5.6.7.8` gives
`1.2.3.4`, and `X-Real-IP: 9.9.9.9` alone gives `9.9.9.9`. -/
theorem clientIP_spec (r : Request) :
    (clientIP r =
      if r.Get "X-Forwarded-For" ≠ [] then (r.Get "X-Forwarded-For").takeWhile (· ≠ ',')
      else if r.Get "X-Real-IP" ≠ [] then r.Get "X-Real-IP"
      else
        match SplitHostPort r.RemoteAddr with
        | .ok (host, _) => host
        | .error _ => r.RemoteAddr) ∧
    (∀ host port, SplitHostPort r.RemoteAddr = .ok (host, port) →
      r.RemoteAddr = host ++ ':' :: port ∨ r.RemoteAddr = '[' :: host ++ ']' :: ':' :: port) ∧
    (∀ xri remote, clientIP (mkRequest "1.2.3.4, 5.6.7.8" xri remote) = "1.2.3.4".toList) ∧
    (∀ remote, clientIP (mkRequest "" "9.9.9.9" remote) = "9.9.9.9".toList) ∧
    clientIP (mkRequest "" "" "10.0.0.7:51234") = "10.0.0.7".toList ∧
    clientIP (mkRequest "" "" "[::1]:51234") = "::1".toList ∧
    clientIP (mkRequest "" "" "10.0.0.7") = "10.0.0.7".toList := by
  refine ⟨clientIP_eq r, fun host port h => SplitHostPort_form _ _ _ h, ?_, ?_, ?_, ?_, ?_⟩
  · intro xri remote
    rw [clientIP_eq]
    have : (mkRequest "1.2.3.4, 5.6.7.8" xri remote).Get "X-Forwarded-For"
        = "1.2.3.4, 5.6.7.8".toList := by
      simp [Request.Get, mkRequest]
    rw [this, if_pos (by decide)]
    decide
  · intro remote
    rw [clientIP_eq]
    have h1 : (mkRequest "" "9.9.9.9" remote).Get "X-Forwarded-For" = [] := by
      simp [Request.Get, mkRequest]
    have h2 : (mkRequest "" "9.9.9.9" remote).Get "X-Real-IP" = "9.9.9.9".toList := by
      simp [Request.Get, mkRequest]
    rw [h1, h2, if_neg (by decide), if_pos (by decide)]
  · decide
  · decide
  · decide

end Server


end Counter
